import Mathlib

/-!
Verification of the Information-Standards-Checker core against its
natural-language specification.

The development shallowly embeds the Python sources:
  * `Rules/checks.py`   — rule predicates and the parameter classifier;
  * `Utilities/helpers.py` — `get_type_and_family`;
  * `main.py`           — the bucket-aggregation loop and run outcome;
  * `Utilities/flatten.py` — `flatten_base` and `extract_base_and_transform`.

Python values that matter to the code are modelled by `PyVal`; nodes of the
Speckle graph by the inductive `Node`.  Fallible Python code (attribute access
without a default, dictionary indexing, `startswith` on a non-string) is
modelled in `Except String`, the error string naming the Python exception.
-/

/-- Scalar Python values stored in dynamic attributes: `None`, strings,
integers and booleans. -/
inductive PyVal : Type where
  | none : PyVal
  | str (s : String) : PyVal
  | int (n : Int) : PyVal
  | bool (b : Bool) : PyVal
deriving DecidableEq, Repr

/-- Python truthiness for the scalar values: `None` is falsy, a string is
truthy iff non-empty, an integer iff non-zero, a boolean iff `true`. -/
def PyVal.truthy : PyVal → Bool
  | .none => false
  | .str s => s ≠ ""
  | .int n => n ≠ 0
  | .bool b => b

/-- Python `s.startswith(pre)` (the kernel-reducible list form of the string
prefix test). -/
def pyStartsWith (s pre : String) : Bool :=
  pre.data.isPrefixOf s.data

/-- An opaque placement value carried by an Instance (the `Transform` type of
`specklepy`); only its identity matters to the traversal. -/
structure Transform : Type where
  tid : Nat
deriving DecidableEq, Repr

/-- A Speckle graph node.  One constructor, with the attribute namespace split
by the shape of the stored value (Python keeps a single namespace; the model
assumes the names used in the different components are distinct, which the
code under analysis relies on as well):

  * `attrs`      — scalar attributes (`id`, `name`, `speckle_type`, `value`,
                   `type`, `family`, `category`, `parent_type`, ...);
  * `dyn`        — dynamic members whose value is a single node (parameter
                   entries of a `parameters` object, `"@..."` members holding
                   one node);
  * `dynList`    — dynamic members whose value is a list of nodes
                   (`"@Lines"`, `"@elements"`, other sigil members);
  * `parameters` — the `parameters` attribute, itself a node whose `dyn`
                   members are the parameter entries (absent when `none`);
  * `elements`   — the `elements` attribute (absent when `none`);
  * `isInstance` — whether the node is a `specklepy` `Instance`;
  * `transform`  — the transform of the Instance (`None` modelled as absent);
  * `definition` — the definition of the Instance (`None` modelled as absent). -/
inductive Node : Type where
  | mk
      (attrs : List (String × PyVal))
      (dyn : List (String × Node))
      (dynList : List (String × List Node))
      (parameters : Option Node)
      (elements : Option (List Node))
      (isInstance : Bool)
      (transform : Option Transform)
      (definition : Option Node)

def Node.attrs : Node → List (String × PyVal)
  | .mk a _ _ _ _ _ _ _ => a

def Node.dyn : Node → List (String × Node)
  | .mk _ d _ _ _ _ _ _ => d

def Node.dynList : Node → List (String × List Node)
  | .mk _ _ dl _ _ _ _ _ => dl

def Node.parameters : Node → Option Node
  | .mk _ _ _ p _ _ _ _ => p

def Node.elements : Node → Option (List Node)
  | .mk _ _ _ _ e _ _ _ => e

def Node.isInstance : Node → Bool
  | .mk _ _ _ _ _ i _ _ => i

def Node.transform : Node → Option Transform
  | .mk _ _ _ _ _ _ t _ => t

def Node.definition : Node → Option Node
  | .mk _ _ _ _ _ _ _ d => d

/-- Scalar attribute lookup: `some v` when the attribute is present. -/
def getAttr? (n : Node) (name : String) : Option PyVal :=
  (n.attrs.find? (fun kv => kv.1 = name)).map (·.2)

/-- Python `getattr(n, name, default)` on a scalar attribute. -/
def getAttrD (n : Node) (name : String) (default : PyVal) : PyVal :=
  (getAttr? n name).getD default

/-- Python `getattr(n, name)` (no default): raises `AttributeError` when the
attribute is absent. -/
def getAttrE (n : Node) (name : String) : Except String PyVal :=
  match getAttr? n name with
  | some v => .ok v
  | Option.none => .error ("AttributeError: " ++ name)

/-- Python `n["name"] = v` / attribute assignment on a scalar attribute:
replaces the stored value in place, or appends the binding. -/
def setAttr (n : Node) (name : String) (v : PyVal) : Node :=
  match n with
  | .mk a d dl p e i t df =>
    if (a.find? (fun kv => kv.1 = name)).isSome then
      .mk (a.map (fun kv => if kv.1 = name then (kv.1, v) else kv)) d dl p e i t df
    else
      .mk (a ++ [(name, v)]) d dl p e i t df

/-- The user inputs consumed by the evaluation logic (`FunctionInputs` in
`main.py`; the report/threshold fields are not consumed by the core). -/
structure FunctionInputs : Type where
  single_category : String
  single_property : String
  single_rule : String
deriving DecidableEq, Repr

/-! ## `Rules/checks.py` -/

/-- `BaseObjectRules.is_revit_parameter`:
`getattr(parameter, "speckle_type", None) == "Objects.BuiltElements.Revit.Parameter"`. -/
def is_revit_parameter (parameter : Node) : Bool :=
  getAttrD parameter "speckle_type" .none =
    .str "Objects.BuiltElements.Revit.Parameter"

/-- `BaseObjectRules.has_missing_value`: `not getattr(parameter, "value")` —
the two-argument `getattr` raises `AttributeError` when `value` is absent. -/
def has_missing_value (parameter : Node) : Except String Bool := do
  let v ← getAttrE parameter "value"
  pure (!v.truthy)

/-- `BaseObjectRules.parameter_name_is(name)`:
`getattr(parameter, "name") is not None and parameter.name == name`.
The first conjunct uses two-argument `getattr`, raising when `name` is
absent. -/
def parameter_name_is (parameter_name : String) (parameter : Node) :
    Except String Bool := do
  let v ← getAttrE parameter "name"
  pure (v ≠ .none && v = .str parameter_name)

/-- `BaseObjectRules.is_category(category)`:
`getattr(parameter, "category", None) == category`. -/
def is_category (category : String) (parameter : Node) : Bool :=
  getAttrD parameter "category" .none = .str category

/-- `BaseObjectRules.evaluate_parameter`.  `None` (the "skipped" outcome) is
modelled as `Option.none`; the other outcomes as their Python strings.
`value.startswith(...)` raises when the (truthy) value is not a string. -/
def evaluate_parameter (parameter : Node) (fi : FunctionInputs) :
    Except String (Option String) :=
  if !is_revit_parameter parameter then .ok Option.none
  else do
    let missing ← has_missing_value parameter
    if missing then pure (some "missing")
    else
      -- value = getattr(parameter, "value", None)
      let value := getAttrD parameter "value" .none
      -- if value is not None and value.startswith(single_rule)
      match value with
      | .none => pure (some "invalid")
      | .str s =>
          pure (some (if pyStartsWith s fi.single_rule then "valid" else "invalid"))
      | _ => .error "AttributeError: startswith"

/-! ## `Utilities/helpers.py` -/

/-- `helpers.get_type_and_family`: reads `type`/`family` from the definition
when the object is a `RevitInstance` wrapper with a definition, otherwise from
the object, defaulting to `"Unknown"`.  Total: every access is defaulted. -/
def get_type_and_family (obj : Node) : PyVal × PyVal :=
  if getAttrD obj "speckle_type" .none = .str "Objects.Other.Revit.RevitInstance"
      && obj.definition.isSome then
    match obj.definition with
    | some d => (getAttrD d "type" (.str "Unknown"), getAttrD d "family" (.str "Unknown"))
    | Option.none => (getAttrD obj "type" (.str "Unknown"), getAttrD obj "family" (.str "Unknown"))
  else
    (getAttrD obj "type" (.str "Unknown"), getAttrD obj "family" (.str "Unknown"))

/-! ## `main.py` — the bucket-aggregation loop (lines 130–196) -/

/-- The per-object summary built in `main.py` lines 154–159 (`object_info`). -/
structure ObjInfo : Type where
  name : PyVal
  type_ : PyVal
  family : PyVal
  id : PyVal
deriving DecidableEq, Repr

/-- The `assessed_objects` dictionary, initialised at `main.py` line 130 with
exactly the keys `"missing"`, `"invalid"` and `"passing"`. -/
structure Buckets : Type where
  missing : List ObjInfo
  invalid : List ObjInfo
  passing : List ObjInfo
deriving DecidableEq, Repr

def Buckets.empty : Buckets := ⟨[], [], []⟩

/-- `assessed_objects[key].append(info)`: Python raises `KeyError` when `key`
is not one of the three keys of the dictionary literal — in particular for the
`"valid"` outcome returned by `evaluate_parameter`. -/
def bucketsAppend (b : Buckets) (key : String) (info : ObjInfo) :
    Except String Buckets :=
  if key = "missing" then .ok { b with missing := b.missing ++ [info] }
  else if key = "invalid" then .ok { b with invalid := b.invalid ++ [info] }
  else if key = "passing" then .ok { b with passing := b.passing ++ [info] }
  else .error ("KeyError: " ++ key)

/-- Python `if assessment:` on `None`-or-string. -/
def optStrTruthy : Option String → Bool
  | Option.none => false
  | some s => s ≠ ""

/-- The body of the parameter loop, `main.py` lines 137–162.  `pObj` is
`current_object`, i.e. the *parameters attribute object* of the traversal
context (line 134) — not the context node itself.  The loop runs over the
dynamic members of `pObj` (its parameter entries, held in `dyn`). -/
def processParams (pObj : Node) (fi : FunctionInputs) :
    List (String × Node) → Buckets → Except String Buckets
  | [], acc => .ok acc
  | (_, parameter) :: rest, acc => do
      let assessment ← evaluate_parameter parameter fi
      -- lines 143–152: type/family are read from `current_object` (= pObj)
      let tf :=
        if getAttrD pObj "speckle_type" .none =
              .str "Objects.Other.Revit.RevitInstance"
            && pObj.definition.isSome then
          match pObj.definition with
          | some d =>
              (getAttrD d "type" (.str "Unknown"),
               getAttrD d "family" (.str "Unknown"))
          | Option.none =>
              (getAttrD pObj "type" (.str "Unknown"),
               getAttrD pObj "family" (.str "Unknown"))
        else
          (getAttrD pObj "type" (.str "Unknown"),
           getAttrD pObj "family" (.str "Unknown"))
      -- lines 154–159: object_info is likewise built from `current_object`
      let info : ObjInfo :=
        { name := getAttrD pObj "name" (.str "Unknown")
          type_ := tf.1
          family := tf.2
          id := getAttrD pObj "id" (.str "Unknown") }
      let acc' ←
        if optStrTruthy assessment then
          bucketsAppend acc (assessment.getD "") info
        else pure acc
      processParams pObj fi rest acc'

/-- One iteration of the context loop, `main.py` lines 133–162:
`current_object = getattr(context.current, "parameters", None)`, skipped when
falsy; otherwise every dynamic member of the parameters object is evaluated. -/
def processContext (cur : Node) (fi : FunctionInputs) (acc : Buckets) :
    Except String Buckets :=
  match cur.parameters with
  | Option.none => .ok acc
  | some pObj => processParams pObj fi pObj.dyn acc

/-- The whole context loop over the traversal result (a list of the `current`
nodes of the traversal contexts). -/
def assessNodes (fi : FunctionInputs) :
    List Node → Buckets → Except String Buckets
  | [], acc => .ok acc
  | c :: cs, acc => do
      let acc' ← processContext c fi acc
      assessNodes fi cs acc'

/-- `main.py` lines 192–196: the run is marked failed iff the `missing` or the
`invalid` bucket is non-empty.  `true` = `mark_run_success`. -/
def runSucceeds (b : Buckets) : Bool :=
  b.missing.isEmpty && b.invalid.isEmpty

/-- The evaluation core of `automate_function` (`main.py` lines 130–196),
taking the traversal output as input: aggregates the buckets and reports the
run outcome.  The message-attachment block (lines 164–190) only formats and
attaches strings through the external context and cannot alter the buckets or
the outcome, so it is not modelled here. -/
def automate_core (contexts : List Node) (fi : FunctionInputs) :
    Except String Bool := do
  let b ← assessNodes fi contexts Buckets.empty
  pure (runSucceeds b)

/-! ## `Utilities/flatten.py` — `flatten_base` (lines 14–43)

`flatten_base` mutates its input: the first statement writes the provenance
tag onto the node (`base["parent_type"] = parent_type`).  The model therefore
returns, besides the yielded leaves, the updated node.  Attribute lists are
manipulated directly so that the termination checker sees the structural
descent. -/

/-- Attribute-list lookup (the scalar half of the Python attribute
namespace). -/
def attrFind? (a : List (String × PyVal)) (name : String) : Option PyVal :=
  (a.find? (fun kv => kv.1 = name)).map (·.2)

/-- Attribute-list update: replace in place or append. -/
def setAttrList (a : List (String × PyVal)) (name : String) (v : PyVal) :
    List (String × PyVal) :=
  if (a.find? (fun kv => kv.1 = name)).isSome then
    a.map (fun kv => if kv.1 = name then (kv.1, v) else kv)
  else a ++ [(name, v)]

mutual

/-- `flatten_base(base, parent_type)`, fully consumed: returns the yielded
leaves and the updated node.  Branch structure of the source:
  1. `base["parent_type"] = parent_type`;
  2. if `elements` is present and non-empty, recurse into each element with
     `base.speckle_type` (undefaulted access) as provenance — the
     `except KeyError` in the source is dead in this model, since no
     modelled operation raises `KeyError`;
  3. elif the node has an `"@Lines"` member, recurse into `member[0]` of
     every sigil-prefixed dynamic member (list-valued members first, then
     node-valued members, a stable order standing in for
     `get_dynamic_member_names`); an empty list raises `IndexError`, a
     node-valued member raises on the integer indexing;
  4. else yield the node itself. -/
def flatten_base : Node → PyVal → Except String (List Node × Node)
  | .mk a d dl p e i t df, parent_type =>
    let a' := setAttrList a "parent_type" parent_type
    match e with
    | some (e0 :: es) =>
      (match attrFind? a' "speckle_type" with
       | Option.none => .error "AttributeError: speckle_type"
       | some st => do
           let (ys, els') ← flattenElems (e0 :: es) st
           pure (ys, Node.mk a' d dl p (some els') i t df))
    | _ =>
      if (d.find? (fun kv => kv.1 = "@Lines")).isSome
          || (dl.find? (fun kv => kv.1 = "@Lines")).isSome then do
        let (ys1, dl') ← flattenCatLists dl
        let (ys2, d') ← flattenCatSingles d
        pure (ys1 ++ ys2, Node.mk a' d' dl' p e i t df)
      else
        pure ([Node.mk a' d dl p e i t df], Node.mk a' d dl p e i t df)

/-- The loop `for element in base.elements: yield from flatten_base(element,
base.speckle_type)`, also returning the updated elements. -/
def flattenElems : List Node → PyVal → Except String (List Node × List Node)
  | [], _ => .ok ([], [])
  | x :: rest, st => do
      let (ys, x') ← flatten_base x st
      let (ys2, rest') ← flattenElems rest st
      pure (ys ++ ys2, x' :: rest')

/-- The `"@Lines"` branch over list-valued sigil members:
`category_object = getattr(base, category)[0]`, then recursion with
`category_object.speckle_type` as provenance. -/
def flattenCatLists : List (String × List Node) →
    Except String (List Node × List (String × List Node))
  | [] => .ok ([], [])
  | (name, lst) :: rest =>
    if pyStartsWith name "@" then
      match lst with
      | [] => .error "IndexError: list index out of range"
      | c :: cs =>
        match attrFind? c.attrs "speckle_type" with
        | Option.none => .error "AttributeError: speckle_type"
        | some st => do
            let (ys, c') ← flatten_base c st
            let (ys2, rest') ← flattenCatLists rest
            pure (ys ++ ys2, (name, c' :: cs) :: rest')
    else do
      let (ys2, rest') ← flattenCatLists rest
      pure (ys2, (name, lst) :: rest')

/-- The `"@Lines"` branch over node-valued sigil members: indexing a node
with the integer `0` raises. -/
def flattenCatSingles : List (String × Node) →
    Except String (List Node × List (String × Node))
  | [] => .ok ([], [])
  | (name, nd) :: rest =>
    if pyStartsWith name "@" then
      .error "TypeError: integer index on a Base object"
    else do
      let (ys2, rest') ← flattenCatSingles rest
      pure (ys2, (name, nd) :: rest')

end

/-! ## `Utilities/flatten.py` — `extract_base_and_transform` (lines 46–90)

The transform lists are Python list objects subject to aliasing:
`transform_list.append(...)` mutates the list supplied by the caller, while
`transform_list.copy()` taken at each recursion produces a fresh object.  The
model makes the aliasing observable through a store of list objects indexed by
allocation order; `yield` hands out the reference held by the current frame. -/

/-- The heap of Python list-of-Transform objects; a reference is an index. -/
abbrev TStore := List (List Transform)

/-- Reading a list object (out-of-range reads never occur on reachable
references; they default to the empty list). -/
def TStore.getRef (st : TStore) (r : Nat) : List Transform := st.getD r []

/-- In-place update of a list object (`append`). -/
def TStore.setRef (st : TStore) (r : Nat) (c : List Transform) : TStore :=
  st.set r c

/-- Allocation of a fresh list object (`[]` literal or `.copy()`). -/
def TStore.alloc (st : TStore) (c : List Transform) : TStore × Nat :=
  (st ++ [c], st.length)

/-- `transform_list = transform_list or []`: an absent argument or an empty
list is replaced by a freshly allocated list object; a non-empty list is
aliased as it stands. -/
def resolveTL (tlO : Option Nat) (st : TStore) : TStore × Nat :=
  match tlO with
  | some r0 => if (st.getRef r0).isEmpty then st.alloc [] else (st, r0)
  | Option.none => st.alloc []

mutual

/-- `extract_base_and_transform(base, inherited_instance_id, transform_list)`,
fully consumed.  Yields `(node, current_id, reference to the transform list)`.
Steps of the source:
  * `current_id = getattr(base, "id", inherited_instance_id)`;
  * `transform_list = transform_list or []` — an absent or empty argument is
    replaced by a freshly allocated list, a non-empty argument is aliased;
  * Instance: `transform_list.append(base.transform)` (mutating the aliased
    list) when a transform is present, then recursion into the definition
    with `transform_list.copy()`;
  * otherwise: yield the node, then recurse into
    `getattr(base, "elements", []) or getattr(base, "@elements", [])` and
    into every sigil-prefixed node-valued member that has an `elements`
    attribute (`dir(base)` loop), each time with a fresh copy. -/
def extract_btS : Node → PyVal → Option Nat → TStore →
    (List (Node × PyVal × Nat) × TStore)
  | .mk a d dl p e i t df, inherited, tlO, st =>
    let current_id := (attrFind? a "id").getD inherited
    let str := resolveTL tlO st
    let st1 := str.1
    let r := str.2
    if i then
      let st2 :=
        match t with
        | some tr => st1.setRef r (st1.getRef r ++ [tr])
        | Option.none => st1
      match df with
      | some defn =>
        let ac := st2.alloc (st2.getRef r)
        extract_btS defn current_id (some ac.2) ac.1
      | Option.none => ([], st2)
    else
      let self := Node.mk a d dl p e i t df
      match e with
      | some (e0 :: es) =>
        let r1 := extractElems (e0 :: es) current_id r st1
        let r2 := extractDyn d current_id r r1.2
        ((self, current_id, r) :: (r1.1 ++ r2.1), r2.2)
      | _ =>
        match hf : dl.find? (fun kv => kv.1 = "@elements") with
        | some kv =>
          let r1 := extractElems kv.2 current_id r st1
          let r2 := extractDyn d current_id r r1.2
          ((self, current_id, r) :: (r1.1 ++ r2.1), r2.2)
        | Option.none =>
          let r2 := extractDyn d current_id r st1
          ((self, current_id, r) :: r2.1, r2.2)
termination_by n _ _ _ => sizeOf n
decreasing_by
  all_goals simp_wf
  all_goals try omega
  all_goals
    (have hm := List.sizeOf_lt_of_mem (List.mem_of_find?_eq_some hf);
     obtain ⟨k, v⟩ := kv;
     first
       | (simp at hm ⊢; omega)
       | (simp at hm; omega)
       | omega)

/-- The loop over `elements_attr`: every element is a node in this model, so
the `isinstance(element, Base)` guard always passes; each recursion receives a
fresh copy of the current transform list. -/
def extractElems : List Node → PyVal → Nat → TStore →
    (List (Node × PyVal × Nat) × TStore)
  | [], _, _, st => ([], st)
  | x :: rest, inh, r, st =>
    let ac := st.alloc (st.getRef r)
    let r1 := extract_btS x inh (some ac.2) ac.1
    let r2 := extractElems rest inh r r1.2
    (r1.1 ++ r2.1, r2.2)
termination_by l _ _ _ => sizeOf l

/-- The `dir(base)` loop: sigil-prefixed node-valued members that expose an
`elements` attribute (mere presence, `hasattr`) are recursed into; list-valued
members fail the `isinstance(attr_value, Base)` guard and are skipped. -/
def extractDyn : List (String × Node) → PyVal → Nat → TStore →
    (List (Node × PyVal × Nat) × TStore)
  | [], _, _, st => ([], st)
  | (name, nd) :: rest, inh, r, st =>
    if pyStartsWith name "@" && nd.elements.isSome then
      let ac := st.alloc (st.getRef r)
      let r1 := extract_btS nd inh (some ac.2) ac.1
      let r2 := extractDyn rest inh r r1.2
      (r1.1 ++ r2.1, r2.2)
    else
      extractDyn rest inh r st
termination_by l _ _ _ => sizeOf l

end

/-- The generator fully consumed from the default entry point
`extract_base_and_transform(root)`, with each yielded reference resolved
against the final store (yielded lists are never mutated after their yield,
so this is the content the consumer observes). -/
def extract_base_and_transform (base : Node) :
    List (Node × PyVal × List Transform) :=
  let run := extract_btS base PyVal.none Option.none []
  run.1.map (fun y => (y.1, y.2.1, run.2.getRef y.2.2))

/-! ## Auxiliary definitions used by the statements -/

mutual

/-- Erase the `parent_type` provenance attribute everywhere in a node: the
lens through which the non-provenance content of a (possibly mutated) node is
compared. -/
def erasePT : Node → Node
  | .mk a d dl p e i t df =>
    Node.mk (a.filter (fun kv => kv.1 ≠ "parent_type"))
      (erasePTDyn d) (erasePTDynList dl)
      (match p with
       | some q => some (erasePT q)
       | Option.none => Option.none)
      (match e with
       | some l => some (erasePTList l)
       | Option.none => Option.none)
      i t
      (match df with
       | some q => some (erasePT q)
       | Option.none => Option.none)

def erasePTDyn : List (String × Node) → List (String × Node)
  | [] => []
  | (k, n) :: rest => (k, erasePT n) :: erasePTDyn rest

def erasePTDynList : List (String × List Node) → List (String × List Node)
  | [] => []
  | (k, l) :: rest => (k, erasePTList l) :: erasePTDynList rest

def erasePTList : List Node → List Node
  | [] => []
  | n :: rest => erasePT n :: erasePTList rest

end

mutual

/-- Modelled from the spec (§3 data-model invariant), for comparison with the
code: a node is a *container* when it has a non-empty `elements` sequence or
at least one legacy sigil-prefixed member that is a single-element sequence
wrapping a container node; matching this pattern is what the spec calls not
being structurally childless. -/
def isSpecContainer : Node → Bool
  | .mk _ _ dl _ e _ _ _ =>
    !(e.getD []).isEmpty || specLegacyWrap dl

/-- Modelled from the spec: the legacy sigil-prefixed container pattern over
the list-valued dynamic members. -/
def specLegacyWrap : List (String × List Node) → Bool
  | [] => false
  | (k, l) :: rest =>
    (pyStartsWith k "@" &&
      (match l with
       | [c] => isSpecContainer c
       | _ => false)) || specLegacyWrap rest

end

/-- Total number of object summaries placed in the buckets. -/
def bucketsSize (b : Buckets) : Nat :=
  b.missing.length + b.invalid.length + b.passing.length

/-- Number of members of the parameters object of a node whose
`speckle_type` is the recognized Revit parameter marker. -/
def revitParamCount (n : Node) : Nat :=
  match n.parameters with
  | Option.none => 0
  | some pObj => (pObj.dyn.filter (fun kv => is_revit_parameter kv.2)).length

/-- The suffix that `extract_base_and_transform` appends to the transform
list object supplied by the caller: non-empty exactly when the root is an
Instance carrying a transform and the supplied list is non-empty. -/
def callerDelta (b : Node) (content : List Transform) : List Transform :=
  if content.isEmpty || !b.isInstance then []
  else
    match b.transform with
    | some tr => [tr]
    | Option.none => []

/-- Reference component of a yielded tuple. -/
def yieldRef (y : Node × PyVal × Nat) : Nat := y.2.2

/-! ## Concrete fixtures for counterexamples and witnesses -/

/-- The demo rule configuration from `main.py` (default field values). -/
def fi0 : FunctionInputs :=
  { single_category := "Windows"
    single_property := "OmniClass Number"
    single_rule := "23.30.20" }

/-- The Revit parameter marker. -/
def revitMarker : PyVal := .str "Objects.BuiltElements.Revit.Parameter"

/-- A leaf node with no attributes at all. -/
def emptyNode : Node :=
  Node.mk [] [] [] Option.none Option.none false Option.none Option.none

/-- A recognized Revit parameter that has no `value` attribute. -/
def revitNoValueParam : Node :=
  Node.mk [("speckle_type", revitMarker)] [] [] Option.none Option.none false
    Option.none Option.none

/-- A recognized Revit parameter whose `value` is present but `None`. -/
def revitNoneValueParam : Node :=
  Node.mk [("speckle_type", revitMarker), ("name", .str "FireRating"),
           ("value", PyVal.none)] [] [] Option.none Option.none false
    Option.none Option.none

/-- A recognized Revit parameter whose value matches the demo rule prefix. -/
def revitValidParam : Node :=
  Node.mk [("speckle_type", revitMarker), ("name", .str "OmniClass Number"),
           ("value", .str "23.30.20.11")] [] [] Option.none Option.none false
    Option.none Option.none

/-- A parameters object holding one mismatched, missing-value parameter. -/
def doorParamsObj : Node :=
  Node.mk [] [("FireRating", revitNoneValueParam)] [] Option.none Option.none
    false Option.none Option.none

/-- A container whose category is not the configured one and whose only
parameter is not named the configured property. -/
def doorNode : Node :=
  Node.mk [("category", .str "Doors"), ("name", .str "D1"), ("id", .str "d1")]
    [] [] (some doorParamsObj) Option.none false Option.none Option.none

/-- A parameters object holding one parameter that classifies as valid. -/
def validParamsObj : Node :=
  Node.mk [] [("OmniClass Number", revitValidParam)] [] Option.none
    Option.none false Option.none Option.none

/-- A container whose single parameter classifies as valid. -/
def validCtx : Node :=
  Node.mk [("name", .str "W1"), ("id", .str "w1")] [] []
    (some validParamsObj) Option.none false Option.none Option.none

/-- A container with full metadata whose parameters object has none: used to
show where the object summary fields are read from. -/
def wallNode : Node :=
  Node.mk [("name", .str "Wall1"), ("type", .str "Basic Wall"),
           ("family", .str "Walls"), ("id", .str "w123")]
    [] [] (some doorParamsObj) Option.none false Option.none Option.none

/-- The all-Unknown object summary. -/
def unknownInfo : ObjInfo :=
  { name := .str "Unknown", type_ := .str "Unknown",
    family := .str "Unknown", id := .str "Unknown" }

/-- Builder for Instance nodes of a transform chain. -/
def instNode (idAttr : Option String) (tr : Transform) (defn : Node) : Node :=
  Node.mk
    (match idAttr with
     | some x => [("id", .str x)]
     | Option.none => [])
    [] [] Option.none Option.none true (some tr) (some defn)

/-- The inner part of an Instance chain: each node carries a transform, lacks
an own id, and refers to the next as its definition. -/
def innerChain : List Transform → Node → Node
  | [], d => d
  | tr :: ts, d => instNode Option.none tr (innerChain ts d)

/-- A chain of `1 + ts.length` Instances whose outermost member has id `x`. -/
def chainRoot (x : String) (tr : Transform) (ts : List Transform) (d : Node) :
    Node :=
  instNode (some x) tr (innerChain ts d)

/-- A childless non-Instance terminal node for chain examples. -/
def leafD : Node :=
  Node.mk [("name", .str "D")] [] [] Option.none Option.none false Option.none
    Option.none

/-- An Instance with a transform and no definition, used to exhibit the
mutation of a caller-supplied transform list. -/
def instTF : Node :=
  Node.mk [] [] [] Option.none Option.none true (some ⟨5⟩) Option.none

/-- A container wrapped in a legacy sigil member. -/
def wrappedContainer : Node :=
  Node.mk [] [] [] Option.none (some [emptyNode]) false Option.none
    Option.none

/-- A node with no `elements` and no `"@Lines"` member but with a legacy
sigil-prefixed member wrapping a container. -/
def atWallsNode : Node :=
  Node.mk [] [] [("@Walls", [wrappedContainer])] Option.none Option.none false
    Option.none Option.none

/-- A second valid-classifying Revit parameter (distinct input for the run
outcome analysis). -/
def revitValidParam10 : Node :=
  Node.mk [("speckle_type", revitMarker), ("name", .str "OmniClass Number"),
           ("value", .str "23.30.20.99")] [] [] Option.none Option.none false
    Option.none Option.none

/-- A parameters object whose single parameter classifies as valid. -/
def validParamsObj10 : Node :=
  Node.mk [] [("OmniClass Number", revitValidParam10)] [] Option.none
    Option.none false Option.none Option.none

/-- A graph whose every evaluated parameter classifies as valid. -/
def validCtx10 : Node :=
  Node.mk [("name", .str "W2"), ("id", .str "w2")] [] []
    (some validParamsObj10) Option.none false Option.none Option.none

/-- The childlessness actually enforced by the code on yielded nodes: no
non-empty `elements`, and no member named `"@Lines"`. -/
def codeChildless (n : Node) : Bool :=
  (n.elements.getD []).isEmpty
    && (n.dyn.find? (fun kv => kv.1 = "@Lines")).isNone
    && (n.dynList.find? (fun kv => kv.1 = "@Lines")).isNone

/-- The node yielded by flattening `atWallsNode` (provenance tag added). -/
def atWallsYield : Node :=
  Node.mk [("parent_type", PyVal.none)] [] [("@Walls", [wrappedContainer])]
    Option.none Option.none false Option.none Option.none

/-- The node yielded by flattening `emptyNode` under provenance `"Root"`. -/
def emptyNodeTagged : Node :=
  Node.mk [("parent_type", PyVal.str "Root")] [] [] Option.none Option.none
    false Option.none Option.none

/-- Store invariant of one `extract_btS` call: the store only grows; list
objects other than the passed one keep their content; the yielded references
are strictly increasing (hence pairwise distinct — no two yielded chains
alias one list object); and every yielded reference is either fresh or the
passed reference. -/
def ExtractMainInv (res : List (Node × PyVal × Nat) × TStore)
    (tlO : Option Nat) (st : TStore) : Prop :=
  st.length ≤ res.2.length ∧
  (∀ j, j < st.length → (∀ r0, tlO = some r0 → j ≠ r0) →
    res.2.getRef j = st.getRef j) ∧
  (res.1.map yieldRef).Pairwise (· < ·) ∧
  (∀ ρ ∈ res.1.map yieldRef, ρ < res.2.length ∧
    (st.length ≤ ρ ∨ ∃ r0, tlO = some r0 ∧ ρ = r0 ∧ r0 < st.length))

/-- Store invariant of the child loops (`extractElems`, `extractDyn`): they
allocate fresh copies for every recursion, so every pre-existing list object
is untouched and every yielded reference is fresh. -/
def ExtractLoopInv (res : List (Node × PyVal × Nat) × TStore)
    (st : TStore) : Prop :=
  st.length ≤ res.2.length ∧
  (∀ j, j < st.length → res.2.getRef j = st.getRef j) ∧
  (res.1.map yieldRef).Pairwise (· < ·) ∧
  (∀ ρ ∈ res.1.map yieldRef, st.length ≤ ρ ∧ ρ < res.2.length)

/-! # Theorems -/

/-! ## Claim C1 — classification totality -/

/-- C1, counterexample: `evaluate_parameter` raises on a recognized Revit
parameter that has no `value` attribute (the undefaulted `getattr` in
`has_missing_value`), so classification is not total without raising. -/
theorem C1_counterexample :
    evaluate_parameter revitNoValueParam fi0 = .error "AttributeError: value" := by
  rfl

/-- C1 (amended): for every parameter that is either not a recognized Revit
parameter, or possesses a `value` attribute whose value is falsy or a string,
`evaluate_parameter` returns without raising exactly one of the four outcomes
`skipped` (`None`), `missing`, `valid`, `invalid`; the model is a pure
function, so identical inputs give identical outcomes. -/
theorem C1_classification_total (p : Node) (fi : FunctionInputs)
    (h : is_revit_parameter p = true →
      ∃ v, getAttr? p "value" = some v ∧
        (v.truthy = true → ∃ s, v = PyVal.str s)) :
    ∃ o, evaluate_parameter p fi = .ok o ∧
      o ∈ [Option.none, some "missing", some "valid", some "invalid"] := by
  by_cases hr : is_revit_parameter p
  · obtain ⟨v, hv, hstr⟩ := h hr
    have hm : has_missing_value p = .ok (!v.truthy) := by
      simp [has_missing_value, getAttrE, hv]
    cases htr : v.truthy with
    | false =>
      refine ⟨some "missing", ?_, by simp⟩
      simp [evaluate_parameter, hr, hm, htr, Bind.bind, Except.bind, Pure.pure, Except.pure]
    | true =>
      obtain ⟨s, rfl⟩ := hstr htr
      refine ⟨some (if pyStartsWith s fi.single_rule then "valid" else "invalid"),
        ?_, by by_cases hpre : pyStartsWith s fi.single_rule <;> simp [hpre]⟩
      simp [evaluate_parameter, hr, hm, htr, getAttrD, hv, Bind.bind, Except.bind, Pure.pure, Except.pure]
  · exact ⟨Option.none, by simp [evaluate_parameter, hr], by simp⟩

/-- C1, witness at a concrete valid parameter. -/
theorem C1_classification_total_witness :
    ∃ o, evaluate_parameter revitValidParam fi0 = .ok o ∧
      o ∈ [Option.none, some "missing", some "valid", some "invalid"] :=
  C1_classification_total revitValidParam fi0
    (fun _ => ⟨.str "23.30.20.11", rfl, fun _ => ⟨"23.30.20.11", rfl⟩⟩)

/-! ## Claim C6 — absent-attribute defaults -/

/-- C6, counterexample: the missing-value check raises `AttributeError` on a
node with no `value` attribute instead of resolving to a default. -/
theorem C6_counterexample :
    has_missing_value emptyNode = .error "AttributeError: value" := by
  rfl

/-- C6 (amended): the defaulted accessors resolve absent attributes to their
documented defaults and never raise — `get_type_and_family` yields
`("Unknown", "Unknown")` whenever `type`, `family` and `definition` are
absent — but `has_missing_value` uses undefaulted attribute access: it
returns (without raising) only when the `value` attribute is present, in
which case it reports the negated Python truthiness of the value. -/
theorem C6_accessor_defaults (obj p : Node) (v : PyVal)
    (hty : getAttr? obj "type" = Option.none)
    (hfa : getAttr? obj "family" = Option.none)
    (hdf : obj.definition = Option.none)
    (hv : getAttr? p "value" = some v) :
    get_type_and_family obj = (.str "Unknown", .str "Unknown") ∧
    has_missing_value p = .ok (!v.truthy) := by
  constructor
  · simp [get_type_and_family, hdf, getAttrD, hty, hfa]
  · simp [has_missing_value, getAttrE, hv, Bind.bind, Except.bind, Pure.pure,
      Except.pure]

/-- C6, witness at concrete nodes. -/
theorem C6_accessor_defaults_witness :
    get_type_and_family emptyNode = (.str "Unknown", .str "Unknown") ∧
    has_missing_value revitNoneValueParam = .ok (!PyVal.none.truthy) :=
  C6_accessor_defaults emptyNode revitNoneValueParam PyVal.none rfl rfl rfl rfl

/-! ## Claim C3 — which nodes reach a bucket -/

/-- A non-Revit parameter is skipped. -/
theorem evaluate_parameter_skip (p : Node) (fi : FunctionInputs)
    (hr : is_revit_parameter p = false) :
    evaluate_parameter p fi = .ok Option.none := by
  simp [evaluate_parameter, hr]

/-- A Revit parameter that evaluates without raising gets one of the three
non-skip outcome strings. -/
theorem evaluate_parameter_revit_ok (p : Node) (fi : FunctionInputs)
    (o : Option String) (hr : is_revit_parameter p = true)
    (h : evaluate_parameter p fi = .ok o) :
    ∃ s, o = some s ∧ (s = "missing" ∨ s = "valid" ∨ s = "invalid") := by
  rw [evaluate_parameter] at h
  simp only [hr, Bool.not_true, Bool.false_eq_true, if_false] at h
  cases hval : getAttr? p "value" with
  | none =>
    rw [show has_missing_value p = .error "AttributeError: value" by
      simp [has_missing_value, getAttrE, hval]] at h
    simp [Bind.bind, Except.bind] at h
  | some v =>
    rw [show has_missing_value p = .ok (!v.truthy) by
      simp [has_missing_value, getAttrE, hval, Bind.bind, Except.bind,
        Pure.pure, Except.pure]] at h
    simp only [Bind.bind, Except.bind] at h
    cases htr : v.truthy with
    | false =>
      simp [htr, Pure.pure, Except.pure] at h
      exact ⟨"missing", by simp [← h]⟩
    | true =>
      simp only [htr, Bool.not_true, Bool.false_eq_true, if_false] at h
      rw [show getAttrD p "value" PyVal.none = v by simp [getAttrD, hval]] at h
      cases v with
      | none => simp [PyVal.truthy] at htr
      | str s =>
        simp [Pure.pure, Except.pure] at h
        refine ⟨if pyStartsWith s fi.single_rule then "valid" else "invalid",
          by simp [← h], ?_⟩
        by_cases hpre : pyStartsWith s fi.single_rule <;> simp [hpre]
      | int n => simp [Pure.pure, Except.pure] at h
      | bool b => simp [Pure.pure, Except.pure] at h

/-- A successful bucket append grows the total size by one. -/
theorem bucketsAppend_ok_size (acc : Buckets) (s : String) (info : ObjInfo)
    (b : Buckets) (h : bucketsAppend acc s info = .ok b) :
    bucketsSize b = bucketsSize acc + 1 := by
  rw [bucketsAppend] at h
  split_ifs at h <;> cases h <;> simp [bucketsSize] <;> omega

/-- A completed parameter loop adds exactly one summary per Revit-typed
parameter of the parameters object. -/
theorem processParams_ok_size (pObj : Node) (fi : FunctionInputs) :
    ∀ (l : List (String × Node)) (acc b : Buckets),
      processParams pObj fi l acc = .ok b →
      bucketsSize b = bucketsSize acc
        + (l.filter (fun kv => is_revit_parameter kv.2)).length := by
  intro l
  induction l with
  | nil =>
    intro acc b h
    rw [processParams] at h
    cases h
    simp
  | cons kv rest ih =>
    intro acc b h
    obtain ⟨key, param⟩ := kv
    rw [processParams] at h
    by_cases hr : is_revit_parameter param
    · cases hev : evaluate_parameter param fi with
      | error e => rw [hev] at h; simp [Bind.bind, Except.bind] at h
      | ok o =>
        obtain ⟨s, rfl, hs⟩ := evaluate_parameter_revit_ok param fi o hr hev
        rw [hev] at h
        simp only [Bind.bind, Except.bind] at h
        have htruthy : optStrTruthy (some s) = true := by
          rcases hs with rfl | rfl | rfl <;> simp [optStrTruthy]
        rw [htruthy] at h
        simp only [Option.getD_some, if_true] at h
        split at h
        · simp at h
        · rename_i acc2 happ
          have := ih acc2 b h
          have hsz := bucketsAppend_ok_size acc s _ acc2 happ
          simp only [List.filter_cons, hr, if_true, List.length_cons]
          omega
    · have hskip := evaluate_parameter_skip param fi (by simpa using hr)
      rw [hskip] at h
      simp only [Bind.bind, Except.bind, optStrTruthy, Pure.pure, Except.pure,
        Bool.false_eq_true, if_false, decide_False] at h
      have := ih acc b (by simpa using h)
      simp only [List.filter_cons, hr, if_false, List.length_cons]
      simpa using this

/-- C3, counterexample: a node whose category is not the configured one and
whose only parameter is not named the configured property is nevertheless
placed in the `missing` bucket. -/
theorem C3_counterexample :
    assessNodes fi0 [doorNode] Buckets.empty =
        .ok { missing := [unknownInfo], invalid := [], passing := [] } ∧
    is_category fi0.single_category doorNode = false ∧
    doorParamsObj.dyn.map Prod.fst = ["FireRating"] ∧
    "FireRating" ≠ fi0.single_property := by
  refine ⟨rfl, rfl, rfl, by decide⟩

/-- C3 (amended): when the evaluation of a node completes without raising,
the number of bucket entries it contributes equals the number of members of
its parameters object whose `speckle_type` is the Revit parameter marker —
the configured category and the configured property name are never consulted,
and nodes without a parameters attribute contribute nothing. -/
theorem C3_bucket_contribution (n : Node) (fi : FunctionInputs) (b : Buckets)
    (h : processContext n fi Buckets.empty = .ok b) :
    bucketsSize b = revitParamCount n := by
  rw [processContext] at h
  cases hp : n.parameters with
  | none =>
    rw [hp] at h
    cases h
    simp [bucketsSize, revitParamCount, hp, Buckets.empty]
  | some pObj =>
    rw [hp] at h
    have := processParams_ok_size pObj fi pObj.dyn Buckets.empty b h
    simpa [bucketsSize, revitParamCount, hp, Buckets.empty] using this

/-- C3, witness: the door-category node contributes exactly its one
Revit-typed parameter. -/
theorem C3_bucket_contribution_witness :
    bucketsSize { missing := [unknownInfo], invalid := [], passing := [] } =
      revitParamCount doorNode :=
  C3_bucket_contribution doorNode fi0
    { missing := [unknownInfo], invalid := [], passing := [] } rfl

/-! ## Claim C4 — result attachment per bucket -/

/-- C4: a parameter that classifies as valid crashes the aggregation loop
with `KeyError` — `evaluate_parameter` returns the string `"valid"` but the
bucket dictionary of `main.py` line 130 only has the keys `missing`,
`invalid` and `passing` — so a valid parameter is never recorded in a bucket
nor reported informationally. -/
theorem C4_valid_bucket_keyerror :
    automate_core [validCtx] fi0 = .error "KeyError: valid" := by
  rfl

/-! ## Claim C8 — object summary provenance -/

/-- C8: the object summary is built from the parameters attribute object
(`current_object` in `main.py` line 134), not from the container node: a
container with full metadata still produces the all-Unknown summary because
its parameters object carries no `name`, `type`, `family` or `id`. -/
theorem C8_summary_reads_parameters_object :
    assessNodes fi0 [wallNode] Buckets.empty =
        .ok { missing := [unknownInfo], invalid := [], passing := [] } ∧
    getAttrD wallNode "name" (.str "Unknown") = .str "Wall1" ∧
    getAttrD wallNode "type" (.str "Unknown") = .str "Basic Wall" ∧
    getAttrD wallNode "family" (.str "Unknown") = .str "Walls" ∧
    getAttrD wallNode "id" (.str "Unknown") = .str "w123" :=
  ⟨rfl, rfl, rfl, rfl, rfl⟩

/-! ## Claim C10 — run outcome -/

/-- C10: a graph in which every evaluated parameter classifies as valid does
not yield a successful run — the aggregation crashes with `KeyError` before
the outcome is decided, because the valid outcome string is not a key of the
bucket dictionary. -/
theorem C10_all_valid_crashes :
    automate_core [validCtx10] fi0 = .error "KeyError: valid" := by
  rfl

/-! ## Claim C5 — leaf-only property of flatten -/

/-- The node-valued sigil loop of the `"@Lines"` branch yields nothing and
keeps the members unchanged whenever it completes. -/
theorem flattenCatSingles_ok (l : List (String × Node)) (ys : List Node)
    (l2 : List (String × Node)) (h : flattenCatSingles l = .ok (ys, l2)) :
    ys = [] ∧ l2 = l := by
  induction l generalizing ys l2 with
  | nil =>
    rw [flattenCatSingles] at h
    cases h
    exact ⟨rfl, rfl⟩
  | cons kv rest ih =>
    obtain ⟨name, nd⟩ := kv
    rw [flattenCatSingles] at h
    by_cases hs : pyStartsWith name "@"
    · simp [hs] at h
    · simp only [hs, Bool.false_eq_true, if_false, Bind.bind, Except.bind] at h
      cases hrest : flattenCatSingles rest with
      | error e => rw [hrest] at h; simp at h
      | ok pr =>
        rw [hrest] at h
        obtain ⟨ys2, rest2⟩ := pr
        simp only [Pure.pure, Except.pure, Except.ok.injEq, Prod.mk.injEq] at h
        obtain ⟨hys, hl2⟩ := h
        obtain ⟨hy0, hr0⟩ := ih ys2 rest2 hrest
        subst hys hl2 hy0 hr0
        exact ⟨rfl, rfl⟩

/-- Every node yielded by the flattening traversal (and by its two inner
loops) passes the childlessness checks of the code itself. -/
theorem flatten_childless_aux :
    (∀ (n : Node) (pt : PyVal), ∀ ys n2, flatten_base n pt = .ok (ys, n2) →
        ∀ y ∈ ys, codeChildless y = true) ∧
    (∀ (dl : List (String × List Node)), ∀ ys dl2,
        flattenCatLists dl = .ok (ys, dl2) →
        ∀ y ∈ ys, codeChildless y = true) ∧
    (∀ (l : List Node) (st : PyVal), ∀ ys l2,
        flattenElems l st = .ok (ys, l2) →
        ∀ y ∈ ys, codeChildless y = true) := by
  refine flatten_base.mutual_induct
    (fun n pt => ∀ ys n2, flatten_base n pt = .ok (ys, n2) →
      ∀ y ∈ ys, codeChildless y = true)
    (fun dl => ∀ ys dl2, flattenCatLists dl = .ok (ys, dl2) →
      ∀ y ∈ ys, codeChildless y = true)
    (fun l st => ∀ ys l2, flattenElems l st = .ok (ys, l2) →
      ∀ y ∈ ys, codeChildless y = true)
    ?_ ?_ ?_ ?_ ?_ ?_ ?_ ?_ ?_ ?_ ?_
  · -- elements branch, speckle_type absent: the traversal raises
    intro a d dl p i t df parent_type a' e0 es hsp ys n2 h
    rw [flatten_base] at h
    simp only [hsp] at h
    simp at h
  · -- elements branch, speckle_type present
    intro a d dl p i t df parent_type a' e0 es st hsp ih ys n2 h
    rw [flatten_base] at h
    simp only [hsp] at h
    cases hfe : flattenElems (e0 :: es) st with
    | error e => rw [hfe] at h; simp [Bind.bind, Except.bind] at h
    | ok pr =>
      rw [hfe] at h
      obtain ⟨ys0, els2⟩ := pr
      simp only [Bind.bind, Except.bind, Pure.pure, Except.pure,
        Except.ok.injEq, Prod.mk.injEq] at h
      obtain ⟨hys, _⟩ := h
      subst hys
      exact ih ys0 els2 hfe
  · -- legacy sigil branch
    intro a d dl p e i t df parent_type hlines he ih ys n2 h
    have hnotcons : ∀ (l : List Node), e = some l → l = [] := by
      intro l hl
      cases l with
      | nil => rfl
      | cons x xs => exact absurd hl (fun hx => he x xs hx)
    cases e with
    | none =>
      rw [flatten_base.eq_def] at h
      simp only [hlines, if_true] at h
      cases hcl : flattenCatLists dl with
      | error er => rw [hcl] at h; simp [Bind.bind, Except.bind] at h
      | ok pr1 =>
        rw [hcl] at h
        obtain ⟨ys1, dl2⟩ := pr1
        cases hcs : flattenCatSingles d with
        | error er =>
          rw [hcs] at h; simp [Bind.bind, Except.bind] at h
        | ok pr2 =>
          rw [hcs] at h
          obtain ⟨ys2, d2⟩ := pr2
          simp only [Bind.bind, Except.bind, Pure.pure, Except.pure,
            Except.ok.injEq, Prod.mk.injEq] at h
          obtain ⟨hys, _⟩ := h
          obtain ⟨hy2, _⟩ := flattenCatSingles_ok d ys2 d2 hcs
          subst hy2
          intro y hy
          rw [← hys] at hy
          simp only [List.append_nil] at hy
          exact ih ys1 dl2 hcl y hy
    | some l =>
      have hl0 : l = [] := hnotcons l rfl
      subst hl0
      rw [flatten_base.eq_def] at h
      simp only [hlines, if_true] at h
      cases hcl : flattenCatLists dl with
      | error er => rw [hcl] at h; simp [Bind.bind, Except.bind] at h
      | ok pr1 =>
        rw [hcl] at h
        obtain ⟨ys1, dl2⟩ := pr1
        cases hcs : flattenCatSingles d with
        | error er =>
          rw [hcs] at h; simp [Bind.bind, Except.bind] at h
        | ok pr2 =>
          rw [hcs] at h
          obtain ⟨ys2, d2⟩ := pr2
          simp only [Bind.bind, Except.bind, Pure.pure, Except.pure,
            Except.ok.injEq, Prod.mk.injEq] at h
          obtain ⟨hys, _⟩ := h
          obtain ⟨hy2, _⟩ := flattenCatSingles_ok d ys2 d2 hcs
          subst hy2
          intro y hy
          rw [← hys] at hy
          simp only [List.append_nil] at hy
          exact ih ys1 dl2 hcl y hy
  · -- leaf case: the node itself is yielded
    intro a d dl p e i t df parent_type hlines he ys n2 h
    cases e with
    | none =>
      rw [flatten_base.eq_def] at h
      simp only [hlines, if_false] at h
      simp only [Bool.not_eq_true] at hlines
      simp only [hlines, Bool.false_eq_true, if_false, Pure.pure, Except.pure,
        Except.ok.injEq, Prod.mk.injEq] at h
      obtain ⟨hys, _⟩ := h
      subst hys
      intro y hy
      simp only [List.mem_singleton] at hy
      subst hy
      cases hd : List.find? (fun kv => kv.1 = "@Lines") d with
      | some kv => rw [hd] at hlines; simp at hlines
      | none =>
        cases hdl : List.find? (fun kv => kv.1 = "@Lines") dl with
        | some kv => rw [hdl] at hlines; simp at hlines
        | none =>
          simp [codeChildless, Node.elements, Node.dyn, Node.dynList, hd, hdl]
    | some l =>
      have hl0 : l = [] := by
        cases l with
        | nil => rfl
        | cons x xs => exact absurd rfl (fun hx => he x xs hx)
      subst hl0
      rw [flatten_base.eq_def] at h
      simp only [hlines, if_false] at h
      simp only [Bool.not_eq_true] at hlines
      simp only [hlines, Bool.false_eq_true, if_false, Pure.pure, Except.pure,
        Except.ok.injEq, Prod.mk.injEq] at h
      obtain ⟨hys, _⟩ := h
      subst hys
      intro y hy
      simp only [List.mem_singleton] at hy
      subst hy
      cases hd : List.find? (fun kv => kv.1 = "@Lines") d with
      | some kv => rw [hd] at hlines; simp at hlines
      | none =>
        cases hdl : List.find? (fun kv => kv.1 = "@Lines") dl with
        | some kv => rw [hdl] at hlines; simp at hlines
        | none =>
          simp [codeChildless, Node.elements, Node.dyn, Node.dynList, hd, hdl]
  · -- flattenCatLists: empty list
    intro ys dl2 h
    rw [flattenCatLists] at h
    cases h
    intro y hy
    simp at hy
  · -- flattenCatLists: sigil member wrapping an empty list raises
    intro name rest hs ys dl2 h
    rw [flattenCatLists] at h
    simp [hs] at h
  · -- flattenCatLists: wrapped head without speckle_type raises
    intro name rest hs c cs hsp ys dl2 h
    rw [flattenCatLists] at h
    simp only [hs, if_true, hsp] at h
    simp at h
  · -- flattenCatLists: recursive case
    intro name rest hs c cs st hsp ih1 ih2 ys dl2 h
    rw [flattenCatLists] at h
    simp only [hs, if_true, hsp] at h
    cases hfb : flatten_base c st with
    | error er => rw [hfb] at h; simp [Bind.bind, Except.bind] at h
    | ok pr1 =>
      rw [hfb] at h
      obtain ⟨ys1, c2⟩ := pr1
      cases hrest : flattenCatLists rest with
      | error er => rw [hrest] at h; simp [Bind.bind, Except.bind] at h
      | ok pr2 =>
        rw [hrest] at h
        obtain ⟨ys2, rest2⟩ := pr2
        simp only [Bind.bind, Except.bind, Pure.pure, Except.pure,
          Except.ok.injEq, Prod.mk.injEq] at h
        obtain ⟨hys, _⟩ := h
        subst hys
        intro y hy
        rcases List.mem_append.mp hy with hy1 | hy2
        · exact ih1 ys1 c2 hfb y hy1
        · exact ih2 ys2 rest2 hrest y hy2
  · -- flattenCatLists: non-sigil member skipped
    intro name lst rest hs ih ys dl2 h
    rw [flattenCatLists.eq_def] at h
    simp only [hs, Bool.false_eq_true, if_false] at h
    cases hrest : flattenCatLists rest with
    | error er => rw [hrest] at h; simp [Bind.bind, Except.bind] at h
    | ok pr2 =>
      rw [hrest] at h
      obtain ⟨ys2, rest2⟩ := pr2
      simp only [Bind.bind, Except.bind, Pure.pure, Except.pure,
        Except.ok.injEq, Prod.mk.injEq] at h
      obtain ⟨hys, _⟩ := h
      subst hys
      exact ih ys2 rest2 hrest
  · -- flattenElems: empty list
    intro st ys l2 h
    rw [flattenElems] at h
    cases h
    intro y hy
    simp at hy
  · -- flattenElems: recursive case
    intro x rest st ih1 ih2 ys l2 h
    rw [flattenElems] at h
    cases hfb : flatten_base x st with
    | error er => rw [hfb] at h; simp [Bind.bind, Except.bind] at h
    | ok pr1 =>
      rw [hfb] at h
      obtain ⟨ys1, x2⟩ := pr1
      cases hrest : flattenElems rest st with
      | error er => rw [hrest] at h; simp [Bind.bind, Except.bind] at h
      | ok pr2 =>
        rw [hrest] at h
        obtain ⟨ys2, rest2⟩ := pr2
        simp only [Bind.bind, Except.bind, Pure.pure, Except.pure,
          Except.ok.injEq, Prod.mk.injEq] at h
        obtain ⟨hys, _⟩ := h
        subst hys
        intro y hy
        rcases List.mem_append.mp hy with hy1 | hy2
        · exact ih1 ys1 x2 hfb y hy1
        · exact ih2 ys2 rest2 hrest y hy2

/-- C5, counterexample: a node with no `elements` and no `"@Lines"` member
but with a sigil-prefixed member wrapping a container is yielded by `flatten`
even though it matches the legacy sigil-prefixed container pattern of the
specification. -/
theorem C5_counterexample :
    flatten_base atWallsNode PyVal.none = .ok ([atWallsYield], atWallsYield) ∧
    isSpecContainer atWallsYield = true := by
  constructor
  · rw [flatten_base.eq_def]
    simp [atWallsNode, atWallsYield, setAttrList, attrFind?, Pure.pure,
      Except.pure]
  · rw [isSpecContainer.eq_def]
    simp [atWallsYield, specLegacyWrap.eq_def, wrappedContainer,
      isSpecContainer.eq_def, pyStartsWith]

/-- C5 (amended): every node yielded by `flatten_base` is childless in the
sense the code checks: its `elements` attribute is absent or empty and it has
no member named `"@Lines"` — but it may still carry other sigil-prefixed
members wrapping containers. -/
theorem C5_flatten_yields_code_childless (root : Node) (pt : PyVal)
    (ys : List Node) (n2 : Node) (h : flatten_base root pt = .ok (ys, n2)) :
    ∀ y ∈ ys, codeChildless y = true :=
  flatten_childless_aux.1 root pt ys n2 h

/-- C5, witness at the sigil-member fixture. -/
theorem C5_flatten_yields_code_childless_witness :
    codeChildless atWallsYield = true :=
  C5_flatten_yields_code_childless atWallsNode PyVal.none [atWallsYield]
    atWallsYield
    (by
      rw [flatten_base.eq_def]
      simp [atWallsNode, atWallsYield, setAttrList, attrFind?, Pure.pure,
        Except.pure])
    atWallsYield (List.mem_singleton.mpr rfl)

/-! ## Claim C9 — what traversal mutates -/

/-- Replacing the stored `parent_type` value does not change the other
attributes. -/
theorem filter_map_replace (a : List (String × PyVal)) (v : PyVal) :
    (a.map (fun kv => if kv.1 = "parent_type" then (kv.1, v) else kv)).filter
        (fun kv => kv.1 ≠ "parent_type")
      = a.filter (fun kv => kv.1 ≠ "parent_type") := by
  induction a with
  | nil => rfl
  | cons kv rest ih =>
    by_cases hk : kv.1 = "parent_type"
    · simp [List.filter_cons, hk]
      simpa using ih
    · simp [List.filter_cons, hk]
      simpa using ih

/-- Appending the `parent_type` binding does not change the other
attributes. -/
theorem filter_append_pt (a : List (String × PyVal)) (v : PyVal) :
    ((a ++ [("parent_type", v)]).filter (fun kv => kv.1 ≠ "parent_type"))
      = a.filter (fun kv => kv.1 ≠ "parent_type") := by
  rw [List.filter_append]
  simp

/-- Writing the provenance tag changes nothing but the `parent_type`
attribute. -/
theorem filter_setAttrList (a : List (String × PyVal)) (v : PyVal) :
    (setAttrList a "parent_type" v).filter (fun kv => kv.1 ≠ "parent_type")
      = a.filter (fun kv => kv.1 ≠ "parent_type") := by
  rw [setAttrList]
  by_cases hf : (a.find? (fun kv => kv.1 = "parent_type")).isSome
  · simp only [hf, if_true]
    exact filter_map_replace a v
  · simp only [hf, Bool.false_eq_true, if_false]
    exact filter_append_pt a v

/-- One-step unfolding of the erasure at a constructor. -/
theorem erasePT_mk (a : List (String × PyVal)) (d : List (String × Node))
    (dl : List (String × List Node)) (p : Option Node)
    (e : Option (List Node)) (i : Bool) (t : Option Transform)
    (df : Option Node) :
    erasePT (Node.mk a d dl p e i t df) =
      Node.mk (a.filter (fun kv => kv.1 ≠ "parent_type"))
        (erasePTDyn d) (erasePTDynList dl) (p.map erasePT)
        (e.map erasePTList) i t (df.map erasePT) := by
  rw [erasePT.eq_def]
  cases p <;> cases e <;> cases df <;> rfl

/-- The flattening traversal changes nothing outside the `parent_type`
provenance attribute: erasing `parent_type` everywhere, the updated tree
equals the input tree (for the traversal and both of its inner loops). -/
theorem flatten_erase_aux :
    (∀ (n : Node) (pt : PyVal), ∀ ys n2, flatten_base n pt = .ok (ys, n2) →
        erasePT n2 = erasePT n) ∧
    (∀ (dl : List (String × List Node)), ∀ ys dl2,
        flattenCatLists dl = .ok (ys, dl2) →
        erasePTDynList dl2 = erasePTDynList dl) ∧
    (∀ (l : List Node) (st : PyVal), ∀ ys l2,
        flattenElems l st = .ok (ys, l2) →
        erasePTList l2 = erasePTList l) := by
  refine flatten_base.mutual_induct
    (fun n pt => ∀ ys n2, flatten_base n pt = .ok (ys, n2) →
      erasePT n2 = erasePT n)
    (fun dl => ∀ ys dl2, flattenCatLists dl = .ok (ys, dl2) →
      erasePTDynList dl2 = erasePTDynList dl)
    (fun l st => ∀ ys l2, flattenElems l st = .ok (ys, l2) →
      erasePTList l2 = erasePTList l)
    ?_ ?_ ?_ ?_ ?_ ?_ ?_ ?_ ?_ ?_ ?_
  · intro a d dl p i t df parent_type a' e0 es hsp ys n2 h
    rw [flatten_base] at h
    simp only [hsp] at h
    simp at h
  · intro a d dl p i t df parent_type a' e0 es st hsp ih ys n2 h
    rw [flatten_base] at h
    simp only [hsp] at h
    cases hfe : flattenElems (e0 :: es) st with
    | error e => rw [hfe] at h; simp [Bind.bind, Except.bind] at h
    | ok pr =>
      rw [hfe] at h
      obtain ⟨ys0, els2⟩ := pr
      simp only [Bind.bind, Except.bind, Pure.pure, Except.pure,
        Except.ok.injEq, Prod.mk.injEq] at h
      obtain ⟨_, hn2⟩ := h
      subst hn2
      rw [erasePT_mk, erasePT_mk]
      simp only [Option.map_some']
      rw [filter_setAttrList a parent_type, ih ys0 els2 hfe]
  · intro a d dl p e i t df parent_type hlines he ih ys n2 h
    have hcases : e = Option.none ∨ e = some [] := by
      cases e with
      | none => exact Or.inl rfl
      | some l =>
        cases l with
        | nil => exact Or.inr rfl
        | cons x xs => exact absurd rfl (fun hx => he x xs hx)
    rcases hcases with rfl | rfl
    all_goals rw [flatten_base.eq_def] at h
    all_goals simp only [hlines, if_true] at h
    all_goals
      cases hcl : flattenCatLists dl with
      | error er => rw [hcl] at h; simp [Bind.bind, Except.bind] at h
      | ok pr1 =>
        rw [hcl] at h
        obtain ⟨ys1, dl2⟩ := pr1
        cases hcs : flattenCatSingles d with
        | error er => rw [hcs] at h; simp [Bind.bind, Except.bind] at h
        | ok pr2 =>
          rw [hcs] at h
          obtain ⟨ys2, d2⟩ := pr2
          simp only [Bind.bind, Except.bind, Pure.pure, Except.pure,
            Except.ok.injEq, Prod.mk.injEq] at h
          obtain ⟨_, hn2⟩ := h
          subst hn2
          obtain ⟨_, hd2⟩ := flattenCatSingles_ok d ys2 d2 hcs
          subst hd2
          rw [erasePT_mk, erasePT_mk]
          rw [filter_setAttrList a parent_type, ih ys1 dl2 hcl]
  · intro a d dl p e i t df parent_type hlines he ys n2 h
    have hcases : e = Option.none ∨ e = some [] := by
      cases e with
      | none => exact Or.inl rfl
      | some l =>
        cases l with
        | nil => exact Or.inr rfl
        | cons x xs => exact absurd rfl (fun hx => he x xs hx)
    rcases hcases with rfl | rfl
    all_goals rw [flatten_base.eq_def] at h
    all_goals
      simp only [hlines, Bool.false_eq_true, if_false, Pure.pure, Except.pure,
        Except.ok.injEq, Prod.mk.injEq] at h
    all_goals
      obtain ⟨_, hn2⟩ := h
      subst hn2
      rw [erasePT_mk, erasePT_mk]
      rw [filter_setAttrList a parent_type]
  · intro ys dl2 h
    rw [flattenCatLists] at h
    cases h
    rfl
  · intro name rest hs ys dl2 h
    rw [flattenCatLists] at h
    simp [hs] at h
  · intro name rest hs c cs hsp ys dl2 h
    rw [flattenCatLists] at h
    simp only [hs, if_true, hsp] at h
    simp at h
  · intro name rest hs c cs st hsp ih1 ih2 ys dl2 h
    rw [flattenCatLists] at h
    simp only [hs, if_true, hsp] at h
    cases hfb : flatten_base c st with
    | error er => rw [hfb] at h; simp [Bind.bind, Except.bind] at h
    | ok pr1 =>
      rw [hfb] at h
      obtain ⟨ys1, c2⟩ := pr1
      cases hrest : flattenCatLists rest with
      | error er => rw [hrest] at h; simp [Bind.bind, Except.bind] at h
      | ok pr2 =>
        rw [hrest] at h
        obtain ⟨ys2, rest2⟩ := pr2
        simp only [Bind.bind, Except.bind, Pure.pure, Except.pure,
          Except.ok.injEq, Prod.mk.injEq] at h
        obtain ⟨_, hdl2⟩ := h
        subst hdl2
        simp only [erasePTDynList, erasePTList]
        rw [ih1 ys1 c2 hfb, ih2 ys2 rest2 hrest]
  · intro name lst rest hs ih ys dl2 h
    rw [flattenCatLists.eq_def] at h
    simp only [hs, Bool.false_eq_true, if_false] at h
    cases hrest : flattenCatLists rest with
    | error er => rw [hrest] at h; simp [Bind.bind, Except.bind] at h
    | ok pr2 =>
      rw [hrest] at h
      obtain ⟨ys2, rest2⟩ := pr2
      simp only [Bind.bind, Except.bind, Pure.pure, Except.pure,
        Except.ok.injEq, Prod.mk.injEq] at h
      obtain ⟨_, hdl2⟩ := h
      subst hdl2
      simp only [erasePTDynList]
      rw [ih ys2 rest2 hrest]
  · intro st ys l2 h
    rw [flattenElems] at h
    cases h
    rfl
  · intro x rest st ih1 ih2 ys l2 h
    rw [flattenElems] at h
    cases hfb : flatten_base x st with
    | error er => rw [hfb] at h; simp [Bind.bind, Except.bind] at h
    | ok pr1 =>
      rw [hfb] at h
      obtain ⟨ys1, x2⟩ := pr1
      cases hrest : flattenElems rest st with
      | error er => rw [hrest] at h; simp [Bind.bind, Except.bind] at h
      | ok pr2 =>
        rw [hrest] at h
        obtain ⟨ys2, rest2⟩ := pr2
        simp only [Bind.bind, Except.bind, Pure.pure, Except.pure,
          Except.ok.injEq, Prod.mk.injEq] at h
        obtain ⟨_, hl2⟩ := h
        subst hl2
        simp only [erasePTList]
        rw [ih1 ys1 x2 hfb, ih2 ys2 rest2 hrest]

/-- C9, counterexample: flattening writes the provenance tag onto the input
node — the yielded node carries a `parent_type` attribute the input node did
not have, so traversal is not side-effect free on its input. -/
theorem C9_counterexample :
    flatten_base emptyNode (PyVal.str "Root") =
        .ok ([emptyNodeTagged], emptyNodeTagged) ∧
    getAttr? emptyNodeTagged "parent_type" = some (.str "Root") ∧
    getAttr? emptyNode "parent_type" = Option.none := by
  refine ⟨?_, rfl, rfl⟩
  rw [flatten_base.eq_def]
  simp [emptyNode, emptyNodeTagged, setAttrList, attrFind?, Pure.pure,
    Except.pure]

/-- C9 (amended): `flatten_base` mutates exactly the `parent_type` provenance
attribute of the nodes it visits and nothing else: erasing `parent_type`
everywhere, the tree after a completed traversal equals the input tree.  (The
extract traversal contains no node assignment at all; the transform-list
mutation it performs is the subject of the transform-chain claims.) -/
theorem C9_flatten_mutates_only_provenance (n : Node) (pt : PyVal)
    (ys : List Node) (n2 : Node) (h : flatten_base n pt = .ok (ys, n2)) :
    erasePT n2 = erasePT n :=
  flatten_erase_aux.1 n pt ys n2 h

/-- C9, witness at the leaf fixture. -/
theorem C9_flatten_mutates_only_provenance_witness :
    erasePT emptyNodeTagged = erasePT emptyNode :=
  C9_flatten_mutates_only_provenance emptyNode (PyVal.str "Root")
    [emptyNodeTagged] emptyNodeTagged
    (by
      rw [flatten_base.eq_def]
      simp [emptyNode, emptyNodeTagged, setAttrList, attrFind?, Pure.pure,
        Except.pure])

/-! ## Claim C2 — transform chains through Instance chains -/

/-- Reading a freshly allocated list object gives its content. -/
theorem getRef_alloc_self (st : TStore) (c : List Transform) :
    (st.alloc c).1.getRef (st.alloc c).2 = c := by
  simp [TStore.alloc, TStore.getRef, List.getD]

/-- Allocation does not disturb existing list objects. -/
theorem getRef_alloc_lt (st : TStore) (c : List Transform) (j : Nat)
    (h : j < st.length) : (st.alloc c).1.getRef j = st.getRef j := by
  simp [TStore.alloc, TStore.getRef, List.getD]
  rw [List.getElem?_append_left h]

/-- Updating a list object in range stores the new content. -/
theorem getRef_setRef_self (st : TStore) (r : Nat) (c : List Transform)
    (h : r < st.length) : (st.setRef r c).getRef r = c := by
  simp [TStore.setRef, TStore.getRef, List.getD]
  rw [List.getElem?_set_self]
  · simp
  · exact h

/-- Updating one list object does not disturb the others. -/
theorem getRef_setRef_ne (st : TStore) (r : Nat) (c : List Transform)
    (j : Nat) (h : j ≠ r) : (st.setRef r c).getRef j = st.getRef j := by
  simp [TStore.setRef, TStore.getRef, List.getD]
  rw [List.getElem?_set_ne (fun he => h he.symm)]

/-- A reference holding a non-empty list is in range. -/
theorem getRef_nonempty_lt (st : TStore) (r : Nat)
    (h : (st.getRef r).isEmpty = false) : r < st.length := by
  by_contra hge
  rw [TStore.getRef, List.getD_eq_default] at h
  · simp at h
  · omega

/-- Resolving a reference to a non-empty list object aliases it. -/
theorem resolveTL_nonempty (st : TStore) (r : Nat)
    (hr : (st.getRef r).isEmpty = false) : resolveTL (some r) st = (st, r) := by
  simp [resolveTL, hr]

set_option maxHeartbeats 1600000 in
/-- Through a chain of id-less Instances each carrying a transform, `extract`
yields exactly the terminal childless node, with the inherited identity and
with the transforms of the chain appended in encounter order to the content
of the incoming transform-list object. -/
theorem extract_chain_store (d : Node) (hInst : d.isInstance = false)
    (hid : attrFind? d.attrs "id" = Option.none)
    (hel : d.elements = Option.none)
    (hdl : d.dynList = []) (hdyn : d.dyn = []) :
    ∀ (ts : List Transform) (inh : PyVal) (r : Nat) (st : TStore),
      (st.getRef r).isEmpty = false →
      ∃ st2 ρ,
        extract_btS (innerChain ts d) inh (some r) st = ([(d, inh, ρ)], st2) ∧
        st2.getRef ρ = st.getRef r ++ ts := by
  intro ts
  induction ts with
  | nil =>
    intro inh r st hr
    refine ⟨st, r, ?_, by simp⟩
    rw [innerChain]
    obtain ⟨a, dy, dll, p, e, i, t, df⟩ := d
    simp only [Node.isInstance] at hInst
    simp only [Node.attrs] at hid
    simp only [Node.elements] at hel
    simp only [Node.dynList] at hdl
    simp only [Node.dyn] at hdyn
    subst hInst hel hdl hdyn
    rw [extract_btS.eq_def]
    simp only []
    rw [resolveTL_nonempty st r hr]
    simp only [hid, Option.getD_none]
    rw [extractDyn]
    simp
  | cons tr ts2 ih =>
    intro inh r st hr
    have hrlt := getRef_nonempty_lt st r hr
    have hset : (st.setRef r (st.getRef r ++ [tr])).getRef r
        = st.getRef r ++ [tr] := by
      exact getRef_setRef_self st r (st.getRef r ++ [tr]) hrlt
    have hac : (((st.setRef r (st.getRef r ++ [tr])).alloc
          ((st.setRef r (st.getRef r ++ [tr])).getRef r)).1.getRef
            ((st.setRef r (st.getRef r ++ [tr])).alloc
              ((st.setRef r (st.getRef r ++ [tr])).getRef r)).2)
        = st.getRef r ++ [tr] := by
      rw [getRef_alloc_self, hset]
    have hne : ((((st.setRef r (st.getRef r ++ [tr])).alloc
          ((st.setRef r (st.getRef r ++ [tr])).getRef r)).1.getRef
            ((st.setRef r (st.getRef r ++ [tr])).alloc
              ((st.setRef r (st.getRef r ++ [tr])).getRef r)).2)).isEmpty
        = false := by
      rw [hac]
      simp
    obtain ⟨st3, ρ, heq, hcontent⟩ :=
      ih inh ((st.setRef r (st.getRef r ++ [tr])).alloc
          ((st.setRef r (st.getRef r ++ [tr])).getRef r)).2
        ((st.setRef r (st.getRef r ++ [tr])).alloc
          ((st.setRef r (st.getRef r ++ [tr])).getRef r)).1 hne
    refine ⟨st3, ρ, ?_, ?_⟩
    · rw [innerChain, instNode, extract_btS.eq_def]
      simp only []
      rw [resolveTL_nonempty st r hr]
      simp only [attrFind?, List.find?_nil, Option.map_none', Option.getD_none]
      exact heq
    · rw [hcontent, hac]
      simp

/-- C2: for a chain of Instances each carrying a transform, the outermost
with id `x` and the inner ones without an own id, terminating in a childless
non-Instance node `d`, the extraction yields exactly one tuple: `d` itself,
the identity `x`, and the chain transforms in root-to-leaf encounter order. -/
theorem C2_extract_chain (x : String) (tr : Transform) (ts : List Transform)
    (d : Node) (hInst : d.isInstance = false)
    (hid : getAttr? d "id" = Option.none)
    (hel : d.elements = Option.none) (hdl : d.dynList = [])
    (hdyn : d.dyn = []) :
    extract_base_and_transform (chainRoot x tr ts d) =
      [(d, .str x, tr :: ts)] := by
  have hid2 : attrFind? d.attrs "id" = Option.none := hid
  obtain ⟨st3, ρ, heq, hcontent⟩ :=
    extract_chain_store d hInst hid2 hel hdl hdyn ts (.str x) 1 [[tr], [tr]]
      (by simp [TStore.getRef, List.getD])
  have htop : extract_btS
      (Node.mk [("id", PyVal.str x)] [] [] Option.none Option.none true
        (some tr) (some (innerChain ts d))) PyVal.none Option.none []
      = extract_btS (innerChain ts d) (PyVal.str x) (some 1) [[tr], [tr]] := by
    rw [extract_btS.eq_def]
    simp [attrFind?, resolveTL, TStore.alloc, TStore.setRef, TStore.getRef,
      List.getD]
  rw [extract_base_and_transform]
  simp only [chainRoot, instNode]
  rw [htop, heq]
  simp only [List.map_cons, List.map_nil, hcontent]
  simp [TStore.getRef, List.getD]

/-- C2, witness: the two-Instance example of the specification. -/
theorem C2_extract_chain_witness :
    extract_base_and_transform (chainRoot "abc" ⟨1⟩ [⟨2⟩] leafD) =
      [(leafD, .str "abc", [⟨1⟩, ⟨2⟩])] :=
  C2_extract_chain "abc" ⟨1⟩ [⟨2⟩] leafD rfl rfl rfl rfl rfl

/-! ## Claim C7 — aliasing of the transform lists -/

/-- Updating a list object keeps the store size. -/
theorem setRef_length (st : TStore) (r : Nat) (c : List Transform) :
    (st.setRef r c).length = st.length := by
  simp [TStore.setRef]

/-- Allocation grows the store by one. -/
theorem alloc_length (st : TStore) (c : List Transform) :
    (st.alloc c).1.length = st.length + 1 := by
  simp [TStore.alloc]

/-- The allocated index is the old size. -/
theorem alloc_ref (st : TStore) (c : List Transform) :
    (st.alloc c).2 = st.length := by
  simp [TStore.alloc]

/-- Argument resolution never shrinks the store. -/
theorem resolveTL_length (tlO : Option Nat) (st : TStore) :
    st.length ≤ (resolveTL tlO st).1.length := by
  rcases tlO with _ | r0
  · simp [resolveTL, TStore.alloc]
  · by_cases hemp : (st.getRef r0).isEmpty <;>
      simp [resolveTL, hemp, TStore.alloc]

/-- The resolved reference is in range. -/
theorem resolveTL_ref_lt (tlO : Option Nat) (st : TStore) :
    (resolveTL tlO st).2 < (resolveTL tlO st).1.length := by
  rcases tlO with _ | r0
  · simp [resolveTL, TStore.alloc]
  · by_cases hemp : (st.getRef r0).isEmpty
    · simp [resolveTL, hemp, TStore.alloc]
    · simp only [resolveTL, hemp, Bool.false_eq_true, if_false]
      exact getRef_nonempty_lt st r0 (by simpa using hemp)

/-- Argument resolution leaves every existing list object unchanged. -/
theorem resolveTL_pres (tlO : Option Nat) (st : TStore) (j : Nat)
    (hj : j < st.length) : (resolveTL tlO st).1.getRef j = st.getRef j := by
  rcases tlO with _ | r0
  · simp only [resolveTL]
    exact getRef_alloc_lt st [] j hj
  · by_cases hemp : (st.getRef r0).isEmpty
    · simp only [resolveTL, hemp, if_true]
      exact getRef_alloc_lt st [] j hj
    · simp [resolveTL, hemp]

/-- The resolved reference is either the aliased non-empty argument or a
fresh allocation. -/
theorem resolveTL_cases (tlO : Option Nat) (st : TStore) :
    (∃ r0, tlO = some r0 ∧ resolveTL tlO st = (st, r0) ∧ r0 < st.length ∧
      (st.getRef r0).isEmpty = false) ∨
    ((resolveTL tlO st).2 = st.length ∧ (resolveTL tlO st).1 = st ++ [[]]) := by
  rcases tlO with _ | r0
  · right
    simp [resolveTL, TStore.alloc]
  · by_cases hemp : (st.getRef r0).isEmpty
    · right
      simp [resolveTL, hemp, TStore.alloc]
    · left
      refine ⟨r0, rfl, by simp [resolveTL, hemp], ?_, by simpa using hemp⟩
      exact getRef_nonempty_lt st r0 (by simpa using hemp)

/-- Assembling the invariant for the non-Instance branch: the node is
yielded with the resolved reference, then the child loops run on fresh
copies. -/
theorem mainYieldInv (tlO : Option Nat) (st : TStore) (self : Node)
    (cid : PyVal) (E D2 : List (Node × PyVal × Nat) × TStore)
    (hE : ExtractLoopInv E (resolveTL tlO st).1)
    (hD : ExtractLoopInv D2 E.2) :
    ExtractMainInv ((self, cid, (resolveTL tlO st).2) :: (E.1 ++ D2.1), D2.2)
      tlO st := by
  obtain ⟨hE1, hE2, hE3, hE4⟩ := hE
  obtain ⟨hD1, hD2, hD3, hD4⟩ := hD
  have hst1 := resolveTL_length tlO st
  have hrlt := resolveTL_ref_lt tlO st
  refine ⟨?_, ?_, ?_, ?_⟩
  · show st.length ≤ D2.2.length
    omega
  · show ∀ j, j < st.length → (∀ r0, tlO = some r0 → j ≠ r0) →
      D2.2.getRef j = st.getRef j
    intro j hj hne
    rw [hD2 j (by omega), hE2 j (by omega), resolveTL_pres tlO st j hj]
  · show (((self, cid, (resolveTL tlO st).2) :: (E.1 ++ D2.1)).map
      yieldRef).Pairwise (· < ·)
    simp only [List.map_cons, List.map_append]
    rw [List.pairwise_cons]
    constructor
    · intro ρ hρ
      rcases List.mem_append.mp hρ with hρ1 | hρ2
      · obtain ⟨y, hy, rfl⟩ := List.mem_map.mp hρ1
        have := hE4 (yieldRef y) (List.mem_map_of_mem yieldRef hy)
        show (resolveTL tlO st).2 < yieldRef y
        omega
      · obtain ⟨y, hy, rfl⟩ := List.mem_map.mp hρ2
        have := hD4 (yieldRef y) (List.mem_map_of_mem yieldRef hy)
        show (resolveTL tlO st).2 < yieldRef y
        omega
    · rw [List.pairwise_append]
      refine ⟨hE3, hD3, ?_⟩
      intro x hx y hy
      have h1 := hE4 x hx
      have h2 := hD4 y hy
      omega
  · show ∀ ρ ∈ ((self, cid, (resolveTL tlO st).2) :: (E.1 ++ D2.1)).map
      yieldRef, ρ < D2.2.length ∧
      (st.length ≤ ρ ∨ ∃ r0, tlO = some r0 ∧ ρ = r0 ∧ r0 < st.length)
    intro ρ hρ
    simp only [List.map_cons, List.map_append, List.mem_cons,
      List.mem_append] at hρ
    rcases hρ with rfl | hρ1 | hρ2
    · constructor
      · simp only [yieldRef]
        omega
      · rcases resolveTL_cases tlO st with ⟨r0, ht, hres, hlt, _⟩ |
          ⟨hfresh, _⟩
        · right
          exact ⟨r0, ht, by simp [yieldRef, hres], hlt⟩
        · left
          simp [yieldRef, hfresh]
    · have := hE4 ρ hρ1
      exact ⟨by omega, Or.inl (by omega)⟩
    · have := hD4 ρ hρ2
      exact ⟨by omega, Or.inl (by omega)⟩

/-- Assembling the invariant for one child-loop step: a fresh copy is
allocated, the child runs on it, the rest of the loop continues. -/
theorem loopStepInv (st : TStore) (r : Nat)
    (R1 R2 : List (Node × PyVal × Nat) × TStore)
    (h1 : ExtractMainInv R1 (some (st.alloc (st.getRef r)).2)
      (st.alloc (st.getRef r)).1)
    (h2 : ExtractLoopInv R2 R1.2) :
    ExtractLoopInv (R1.1 ++ R2.1, R2.2) st := by
  obtain ⟨h11, h12, h13, h14⟩ := h1
  obtain ⟨h21, h22, h23, h24⟩ := h2
  rw [alloc_length] at h11
  have hac2 := alloc_ref st (st.getRef r)
  have hbound : ∀ ρ ∈ R1.1.map yieldRef, st.length ≤ ρ ∧ ρ < R1.2.length := by
    intro ρ hρ
    have := h14 ρ hρ
    rcases this.2 with hge | ⟨r0, ht, rfl, hlt⟩
    · rw [alloc_length] at hge
      exact ⟨by omega, this.1⟩
    · cases ht
      rw [hac2]
      rw [alloc_length] at hlt
      exact ⟨le_refl _, this.1⟩
  refine ⟨?_, ?_, ?_, ?_⟩
  · show st.length ≤ R2.2.length
    omega
  · show ∀ j, j < st.length → R2.2.getRef j = st.getRef j
    intro j hj
    rw [h22 j (by omega),
      h12 j (by rw [alloc_length]; omega)
        (by
          rintro r0 ⟨rfl⟩
          rw [hac2]
          omega),
      getRef_alloc_lt st (st.getRef r) j hj]
  · show ((R1.1 ++ R2.1).map yieldRef).Pairwise (· < ·)
    simp only [List.map_append]
    rw [List.pairwise_append]
    refine ⟨h13, h23, ?_⟩
    intro x hx y hy
    have hx2 := hbound x hx
    have hy2 := h24 y hy
    omega
  · show ∀ ρ ∈ (R1.1 ++ R2.1).map yieldRef, st.length ≤ ρ ∧ ρ < R2.2.length
    intro ρ hρ
    simp only [List.map_append, List.mem_append] at hρ
    rcases hρ with hρ1 | hρ2
    · have := hbound ρ hρ1
      exact ⟨this.1, by omega⟩
    · have := h24 ρ hρ2
      exact ⟨by omega, this.2⟩

/-- The empty-loop invariant. -/
theorem loopNilInv (st : TStore) : ExtractLoopInv (([], st)) st := by
  refine ⟨le_refl _, fun j hj => rfl, by simp, by simp⟩

/-- Assembling the invariant for the Instance branch with a definition: the
list object update stays on the resolved reference, the recursion runs on a
fresh copy. -/
theorem mainInstDefInv (tlO : Option Nat) (st st2 : TStore)
    (hlen : st2.length = (resolveTL tlO st).1.length)
    (hpres : ∀ j, j < (resolveTL tlO st).1.length →
      j ≠ (resolveTL tlO st).2 →
      st2.getRef j = (resolveTL tlO st).1.getRef j)
    (R : List (Node × PyVal × Nat) × TStore)
    (hR : ExtractMainInv R
      (some (st2.alloc (st2.getRef (resolveTL tlO st).2)).2)
      (st2.alloc (st2.getRef (resolveTL tlO st).2)).1) :
    ExtractMainInv R tlO st := by
  obtain ⟨h1, h2, h3, h4⟩ := hR
  have hst1 := resolveTL_length tlO st
  have hrlt := resolveTL_ref_lt tlO st
  have hac2 := alloc_ref st2 (st2.getRef (resolveTL tlO st).2)
  rw [alloc_length] at h1
  refine ⟨by omega, ?_, h3, ?_⟩
  · intro j hj hne
    have hjner : j ≠ (resolveTL tlO st).2 := by
      rcases resolveTL_cases tlO st with ⟨r0, ht, hres, hlt, _⟩ |
        ⟨hfresh, _⟩
      · rw [hres]
        exact hne r0 ht
      · rw [hfresh]
        omega
    rw [h2 j (by rw [alloc_length]; omega)
        (by
          rintro r0 ⟨rfl⟩
          rw [hac2]
          omega),
      getRef_alloc_lt st2 _ j (by omega), hpres j (by omega) hjner,
      resolveTL_pres tlO st j hj]
  · intro ρ hρ
    have := h4 ρ hρ
    rcases this.2 with hge | ⟨r0, ht, rfl, hlt⟩
    · rw [alloc_length] at hge
      exact ⟨this.1, Or.inl (by omega)⟩
    · cases ht
      rw [hac2]
      exact ⟨this.1, Or.inl (by omega)⟩

/-- Assembling the invariant for the Instance branch without a definition:
nothing is yielded and only the resolved reference may have been updated. -/
theorem mainInstNoDefInv (tlO : Option Nat) (st st2 : TStore)
    (hlen : st2.length = (resolveTL tlO st).1.length)
    (hpres : ∀ j, j < (resolveTL tlO st).1.length →
      j ≠ (resolveTL tlO st).2 →
      st2.getRef j = (resolveTL tlO st).1.getRef j) :
    ExtractMainInv (([], st2)) tlO st := by
  have hst1 := resolveTL_length tlO st
  have hrlt := resolveTL_ref_lt tlO st
  refine ⟨?_, ?_, by simp, by simp⟩
  · show st.length ≤ st2.length
    omega
  · show ∀ j, j < st.length → (∀ r0, tlO = some r0 → j ≠ r0) →
      st2.getRef j = st.getRef j
    intro j hj hne
    have hjner : j ≠ (resolveTL tlO st).2 := by
      rcases resolveTL_cases tlO st with ⟨r0, ht, hres, hlt, _⟩ |
        ⟨hfresh, _⟩
      · rw [hres]
        exact hne r0 ht
      · rw [hfresh]
        omega
    rw [hpres j (by omega) hjner, resolveTL_pres tlO st j hj]

set_option maxHeartbeats 1600000 in
/-- The store invariant holds for every extraction call: the store grows
monotonically, list objects other than the passed one are never mutated, and
the yielded references are strictly increasing. -/
theorem extract_inv_all :
    (∀ (b : Node) (inh : PyVal) (tlO : Option Nat) (st : TStore),
        ExtractMainInv (extract_btS b inh tlO st) tlO st) ∧
    (∀ (l : List (String × Node)) (inh : PyVal) (r : Nat) (st : TStore),
        ExtractLoopInv (extractDyn l inh r st) st) ∧
    (∀ (l : List Node) (inh : PyVal) (r : Nat) (st : TStore),
        ExtractLoopInv (extractElems l inh r st) st) := by
  refine extract_btS.mutual_induct
    (fun b inh tlO st => ExtractMainInv (extract_btS b inh tlO st) tlO st)
    (fun l inh r st => ExtractLoopInv (extractDyn l inh r st) st)
    (fun l inh r st => ExtractLoopInv (extractElems l inh r st) st)
    ?_ ?_ ?_ ?_ ?_ ?_ ?_ ?_ ?_ ?_
  · -- Instance with a definition
    intro a d dl p e t inherited tlO st current_id str st1 r st2 d1 ac ih
    have hres : extract_btS (Node.mk a d dl p e true t (some d1)) inherited
        tlO st = extract_btS d1 current_id (some ac.2) ac.1 := by
      rw [extract_btS.eq_def]
      rfl
    rw [hres]
    refine mainInstDefInv tlO st st2 ?_ ?_ _ ih
    · show (match t with
        | some tr => st1.setRef r (st1.getRef r ++ [tr])
        | Option.none => st1).length = st1.length
      cases t <;> simp [setRef_length]
    · show ∀ j, j < st1.length → j ≠ r →
        (match t with
          | some tr => st1.setRef r (st1.getRef r ++ [tr])
          | Option.none => st1).getRef j = st1.getRef j
      intro j hj hne
      cases t with
      | none => rfl
      | some tr => exact getRef_setRef_ne st1 r _ j hne
  · -- Instance without a definition
    intro a d dl p e t inherited tlO st
    have hres : extract_btS (Node.mk a d dl p e true t Option.none) inherited
        tlO st = ([],
          match t with
          | some tr => (resolveTL tlO st).1.setRef (resolveTL tlO st).2
              ((resolveTL tlO st).1.getRef (resolveTL tlO st).2 ++ [tr])
          | Option.none => (resolveTL tlO st).1) := by
      rw [extract_btS.eq_def]
      rfl
    rw [hres]
    refine mainInstNoDefInv tlO st _ ?_ ?_
    · cases t <;> simp [setRef_length]
    · intro j hj hne
      cases t with
      | none => rfl
      | some tr => exact getRef_setRef_ne _ (resolveTL tlO st).2 _ j hne
  · -- non-Instance with non-empty elements
    intro a d dl p i t df inherited tlO st current_id str st1 r hni e0 es r1
      ih3a ih3b ih2
    have hi : i = false := by
      revert hni
      cases i <;> simp
    subst hi
    have hres : extract_btS (Node.mk a d dl p (some (e0 :: es)) false t df)
        inherited tlO st =
        ((Node.mk a d dl p (some (e0 :: es)) false t df, current_id,
            (resolveTL tlO st).2) ::
          (r1.1 ++ (extractDyn d current_id r r1.2).1),
          (extractDyn d current_id r r1.2).2) := by
      rw [extract_btS.eq_def]
      rfl
    rw [hres]
    exact mainYieldInv tlO st _ current_id r1
      (extractDyn d current_id r r1.2) ih3a ih2
  · -- non-Instance without elements, with an "@elements" member
    intro a d dl p e i t df inherited tlO st current_id str st1 r hni kv hf
      r1 he ih3a ih3b ih2
    have hi : i = false := by
      revert hni
      cases i <;> simp
    subst hi
    have hcases : e = Option.none ∨ e = some [] := by
      cases e with
      | none => exact Or.inl rfl
      | some l =>
        cases l with
        | nil => exact Or.inr rfl
        | cons x xs => exact absurd rfl (fun hx => he x xs hx)
    have hres : extract_btS (Node.mk a d dl p e false t df)
        inherited tlO st =
        ((Node.mk a d dl p e false t df, current_id,
            (resolveTL tlO st).2) ::
          (r1.1 ++ (extractDyn d current_id r r1.2).1),
          (extractDyn d current_id r r1.2).2) := by
      rcases hcases with rfl | rfl
      all_goals
        (rw [extract_btS.eq_def]
         simp only [Bool.false_eq_true, if_false]
         split
         · rename_i kv2 heq
           rw [hf] at heq
           cases heq
           rfl
         · rename_i heq
           rw [hf] at heq
           cases heq)
    rw [hres]
    exact mainYieldInv tlO st _ current_id r1
      (extractDyn d current_id r r1.2) ih3a ih2
  · -- non-Instance without elements and without an "@elements" member
    intro a d dl p e i t df inherited tlO st current_id str st1 r hni hf he
      ih2
    have hi : i = false := by
      revert hni
      cases i <;> simp
    subst hi
    have hcases : e = Option.none ∨ e = some [] := by
      cases e with
      | none => exact Or.inl rfl
      | some l =>
        cases l with
        | nil => exact Or.inr rfl
        | cons x xs => exact absurd rfl (fun hx => he x xs hx)
    have hres : extract_btS (Node.mk a d dl p e false t df)
        inherited tlO st =
        ((Node.mk a d dl p e false t df, current_id,
            (resolveTL tlO st).2) ::
          (extractDyn d current_id r st1).1,
          (extractDyn d current_id r st1).2) := by
      rcases hcases with rfl | rfl
      all_goals
        (rw [extract_btS.eq_def]
         simp only [Bool.false_eq_true, if_false]
         split
         · rename_i kv2 heq
           rw [hf] at heq
           cases heq
         · rfl)
    rw [hres]
    exact mainYieldInv tlO st _ current_id ([], st1)
      (extractDyn d current_id r st1) (loopNilInv st1) ih2
  · -- extractDyn, empty list
    intro inh r st
    rw [extractDyn]
    exact loopNilInv st
  · -- extractDyn, recursed member
    intro name nd rest inh r st hcond ac r1 ihm ihm2 ihr
    have hres : extractDyn ((name, nd) :: rest) inh r st =
        (r1.1 ++ (extractDyn rest inh r r1.2).1,
          (extractDyn rest inh r r1.2).2) := by
      rw [extractDyn]
      simp only [hcond, if_true]
    rw [hres]
    exact loopStepInv st r r1 (extractDyn rest inh r r1.2) ihm2 ihr
  · -- extractDyn, skipped member
    intro name nd rest inh r st hcond ihr
    have hres : extractDyn ((name, nd) :: rest) inh r st =
        extractDyn rest inh r st := by
      rw [extractDyn]
      simp only [hcond, Bool.false_eq_true, if_false]
    rw [hres]
    exact ihr
  · -- extractElems, empty list
    intro inh r st
    rw [extractElems]
    exact loopNilInv st
  · -- extractElems, element step
    intro x rest inh r st ac r1 ihm ihm2 ihr
    have hres : extractElems (x :: rest) inh r st =
        (r1.1 ++ (extractElems rest inh r r1.2).1,
          (extractElems rest inh r r1.2).2) := by
      rw [extractElems]
    rw [hres]
    exact loopStepInv st r r1 (extractElems rest inh r r1.2) ihm2 ihr

set_option maxHeartbeats 1600000 in
/-- For a non-Instance node the traversal never mutates any existing list
object: the final store agrees with the resolved store on every reference in
range (the node only yields and hands fresh copies to its children). -/
theorem extract_else_pres (a : List (String × PyVal))
    (d : List (String × Node)) (dl : List (String × List Node))
    (p : Option Node) (e : Option (List Node)) (t : Option Transform)
    (df : Option Node) (inh : PyVal) (tlO : Option Nat) (st : TStore)
    (j : Nat) (hj : j < (resolveTL tlO st).1.length) :
    (extract_btS (Node.mk a d dl p e false t df) inh tlO st).2.getRef j
      = (resolveTL tlO st).1.getRef j := by
  rw [extract_btS.eq_def]
  simp only [Bool.false_eq_true, if_false]
  split
  · rename_i e0 es
    obtain ⟨hE1, hE2, _, _⟩ := extract_inv_all.2.2 (e0 :: es)
      ((attrFind? a "id").getD inh) (resolveTL tlO st).2 (resolveTL tlO st).1
    obtain ⟨hD1, hD2, _, _⟩ := extract_inv_all.2.1 d
      ((attrFind? a "id").getD inh) (resolveTL tlO st).2
      (extractElems (e0 :: es) ((attrFind? a "id").getD inh)
        (resolveTL tlO st).2 (resolveTL tlO st).1).2
    rw [hD2 j (by omega), hE2 j (by omega)]
  · split
    · rename_i kv heq
      obtain ⟨hE1, hE2, _, _⟩ := extract_inv_all.2.2 kv.2
        ((attrFind? a "id").getD inh) (resolveTL tlO st).2
        (resolveTL tlO st).1
      obtain ⟨hD1, hD2, _, _⟩ := extract_inv_all.2.1 d
        ((attrFind? a "id").getD inh) (resolveTL tlO st).2
        (extractElems kv.2 ((attrFind? a "id").getD inh)
          (resolveTL tlO st).2 (resolveTL tlO st).1).2
      rw [hD2 j (by omega), hE2 j (by omega)]
    · obtain ⟨hD1, hD2, _, _⟩ := extract_inv_all.2.1 d
        ((attrFind? a "id").getD inh) (resolveTL tlO st).2
        (resolveTL tlO st).1
      rw [hD2 j (by omega)]

/-- C7, counterexample: extracting an Instance that carries a transform,
with a caller-supplied non-empty transform list, appends the transform to
the list object of the caller — the sequence supplied by the caller is not
unchanged after the traversal. -/
theorem C7_counterexample :
    (extract_btS instTF PyVal.none (some 0) [[⟨9⟩]]).2.getRef 0
        = [⟨9⟩, ⟨5⟩] ∧
    ([⟨9⟩, ⟨5⟩] : List Transform) ≠ [⟨9⟩] := by
  constructor
  · rw [extract_btS.eq_def]
    simp [instTF, resolveTL, TStore.getRef, TStore.setRef, TStore.alloc,
      List.getD]
  · simp

set_option maxHeartbeats 1600000 in
/-- C7 (amended): the transform list is copied at every branch point — the
references yielded for different tuples are pairwise distinct, so no chain
yielded in one sibling subtree shares a list object with another — but the
caller-supplied sequence itself is not invariant: when the root is an
Instance carrying a transform and the supplied list is non-empty, exactly
that transform is appended to it (the copy is taken only when recursing);
in every other case the caller-supplied list is unchanged. -/
theorem C7_copy_on_branch (b : Node) (inh : PyVal) (r : Nat) (st : TStore)
    (h : r < st.length) :
    (extract_btS b inh (some r) st).2.getRef r
        = st.getRef r ++ callerDelta b (st.getRef r) ∧
    ((extract_btS b inh (some r) st).1.map yieldRef).Pairwise (· ≠ ·) := by
  constructor
  · obtain ⟨a, d, dl, p, e, i, t, df⟩ := b
    cases i with
    | false =>
      have hj : r < (resolveTL (some r) st).1.length := by
        have := resolveTL_length (some r) st
        omega
      rw [extract_else_pres a d dl p e t df inh (some r) st r hj,
        resolveTL_pres (some r) st r h]
      simp [callerDelta, Node.isInstance]
    | true =>
      rcases df with _ | defn <;> rcases t with _ | tr
      · -- no transform, no definition
        have hres : extract_btS (Node.mk a d dl p e true Option.none
            Option.none) inh (some r) st = ([], (resolveTL (some r) st).1) := by
          rw [extract_btS.eq_def]
          rfl
        rw [hres]
        simp only [resolveTL_pres (some r) st r h]
        simp [callerDelta, Node.isInstance, Node.transform]
      · -- transform, no definition
        have hres : extract_btS (Node.mk a d dl p e true (some tr)
            Option.none) inh (some r) st =
            ([], (resolveTL (some r) st).1.setRef (resolveTL (some r) st).2
              ((resolveTL (some r) st).1.getRef (resolveTL (some r) st).2
                ++ [tr])) := by
          rw [extract_btS.eq_def]
          rfl
        rw [hres]
        by_cases hemp : (st.getRef r).isEmpty
        · have hrTL : resolveTL (some r) st = (st.alloc [] : TStore × Nat) := by
            simp [resolveTL, hemp]
          rw [hrTL]
          rw [getRef_setRef_ne _ _ _ r (by rw [alloc_ref]; omega),
            getRef_alloc_lt st [] r h]
          simp [callerDelta, hemp]
        · have hrTL : resolveTL (some r) st = (st, r) :=
            resolveTL_nonempty st r (by simpa using hemp)
          rw [hrTL]
          rw [getRef_setRef_self st r _ h]
          simp [callerDelta, hemp, Node.isInstance, Node.transform]
      · -- no transform, definition
        have hres : extract_btS (Node.mk a d dl p e true Option.none
            (some defn)) inh (some r) st =
            extract_btS defn ((attrFind? a "id").getD inh)
              (some ((resolveTL (some r) st).1.alloc
                ((resolveTL (some r) st).1.getRef
                  (resolveTL (some r) st).2)).2)
              ((resolveTL (some r) st).1.alloc
                ((resolveTL (some r) st).1.getRef
                  (resolveTL (some r) st).2)).1 := by
          rw [extract_btS.eq_def]
          rfl
        rw [hres]
        have hst1 := resolveTL_length (some r) st
        obtain ⟨h1, h2, _, _⟩ := extract_inv_all.1 defn
          ((attrFind? a "id").getD inh)
          (some ((resolveTL (some r) st).1.alloc
            ((resolveTL (some r) st).1.getRef (resolveTL (some r) st).2)).2)
          ((resolveTL (some r) st).1.alloc
            ((resolveTL (some r) st).1.getRef (resolveTL (some r) st).2)).1
        rw [h2 r (by rw [alloc_length]; omega)
            (by
              rintro r0 ⟨rfl⟩
              rw [alloc_ref]
              omega),
          getRef_alloc_lt _ _ r (by omega),
          resolveTL_pres (some r) st r h]
        simp [callerDelta, Node.isInstance, Node.transform]
      · -- transform and definition
        have hres : extract_btS (Node.mk a d dl p e true (some tr)
            (some defn)) inh (some r) st =
            extract_btS defn ((attrFind? a "id").getD inh)
              (some (((resolveTL (some r) st).1.setRef
                  (resolveTL (some r) st).2
                  ((resolveTL (some r) st).1.getRef (resolveTL (some r) st).2
                    ++ [tr])).alloc
                (((resolveTL (some r) st).1.setRef (resolveTL (some r) st).2
                  ((resolveTL (some r) st).1.getRef (resolveTL (some r) st).2
                    ++ [tr])).getRef (resolveTL (some r) st).2)).2)
              (((resolveTL (some r) st).1.setRef (resolveTL (some r) st).2
                  ((resolveTL (some r) st).1.getRef (resolveTL (some r) st).2
                    ++ [tr])).alloc
                (((resolveTL (some r) st).1.setRef (resolveTL (some r) st).2
                  ((resolveTL (some r) st).1.getRef (resolveTL (some r) st).2
                    ++ [tr])).getRef (resolveTL (some r) st).2)).1 := by
          rw [extract_btS.eq_def]
          rfl
        rw [hres]
        have hst1 := resolveTL_length (some r) st
        obtain ⟨h1, h2, _, _⟩ := extract_inv_all.1 defn
          ((attrFind? a "id").getD inh)
          (some (((resolveTL (some r) st).1.setRef (resolveTL (some r) st).2
              ((resolveTL (some r) st).1.getRef (resolveTL (some r) st).2
                ++ [tr])).alloc
            (((resolveTL (some r) st).1.setRef (resolveTL (some r) st).2
              ((resolveTL (some r) st).1.getRef (resolveTL (some r) st).2
                ++ [tr])).getRef (resolveTL (some r) st).2)).2)
          (((resolveTL (some r) st).1.setRef (resolveTL (some r) st).2
              ((resolveTL (some r) st).1.getRef (resolveTL (some r) st).2
                ++ [tr])).alloc
            (((resolveTL (some r) st).1.setRef (resolveTL (some r) st).2
              ((resolveTL (some r) st).1.getRef (resolveTL (some r) st).2
                ++ [tr])).getRef (resolveTL (some r) st).2)).1
        rw [h2 r (by rw [alloc_length, setRef_length]; omega)
            (by
              rintro r0 ⟨rfl⟩
              rw [alloc_ref, setRef_length]
              omega),
          getRef_alloc_lt _ _ r (by rw [setRef_length]; omega)]
        by_cases hemp : (st.getRef r).isEmpty
        · have hrTL : resolveTL (some r) st = (st.alloc [] : TStore × Nat) := by
            simp [resolveTL, hemp]
          rw [hrTL]
          rw [getRef_setRef_ne _ _ _ r (by rw [alloc_ref]; omega),
            getRef_alloc_lt st [] r h]
          simp [callerDelta, hemp]
        · have hrTL : resolveTL (some r) st = (st, r) :=
            resolveTL_nonempty st r (by simpa using hemp)
          rw [hrTL]
          rw [getRef_setRef_self st r _ h]
          simp [callerDelta, hemp, Node.isInstance, Node.transform]
  · have := (extract_inv_all.1 b inh (some r) st).2.2.1
    exact this.imp (fun hlt => Nat.ne_of_lt hlt)

/-- C7, witness: the caller-supplied non-empty list gains exactly the root
transform, and all yielded references are distinct. -/
theorem C7_copy_on_branch_witness :
    (extract_btS instTF PyVal.none (some 0) [[⟨9⟩]]).2.getRef 0
        = TStore.getRef [[⟨9⟩]] 0 ++
            callerDelta instTF (TStore.getRef [[⟨9⟩]] 0) ∧
    ((extract_btS instTF PyVal.none (some 0) [[⟨9⟩]]).1.map
        yieldRef).Pairwise (· ≠ ·) :=
  C7_copy_on_branch instTF PyVal.none 0 [[⟨9⟩]] (by simp)
